import Mathlib

/-!
Verification of the request-routing core of the `go-api` repository.

The embedding below translates the routing tree of the repository into Lean:

* `RouteNode` mirrors the Go struct `RouteNode` (src/internal/routes/route.go,
  with the registration half in the engine sources): a path segment, its kind,
  an optional parameter name, per-verb handler bindings, locally attached
  middleware, static children, at most one parameter child and at most one
  wildcard child.  The Go parent pointer is modelled by passing the chain of
  ancestor nodes downward during resolution (the parent chain of a node is
  exactly the descent path that reached it).
* Handlers and middleware functions are opaque in the claims, so they are
  modelled by identifiers: a handler is an `Option Nat` (`none` is Go's `nil`
  handler), a middleware is a `Nat`.
* Paths and segments are lists of characters (`Seg`), mirroring Go strings.
* The path-parameter map `map[string]string` is modelled as an association
  list with overwrite-on-insert semantics.
-/

set_option maxHeartbeats 1000000
set_option maxRecDepth 4000

/-- A Go string viewed as its list of characters. -/
abbrev Seg : Type := List Char

/-- The path-parameter mapping `map[string]string`. -/
abbrev Params : Type := List (Seg × Seg)

/-- `RouteType` from route.go: the kind of a route node. -/
inductive RouteType where
  | None
  | Static
  | Param
  | Wildcard
deriving DecidableEq, Repr

/-- Error taxonomy from errors.go. -/
inductive RErr where
  | routeNotFound
  | routeAlreadyExists
  | routeMalformedPath
deriving DecidableEq, Repr

/-- `RouteNode` from route.go.  `handlers` is the verb-to-handler map
(association list, verbs as Lean `String`s), `static` the static children,
`param`/`wildcard` the at-most-one parameter and wildcard children.
The Go `parent` back-reference is not a field: ancestors are passed
explicitly where the Go code walks parents. -/
inductive RouteNode where
  | mk (path : Seg) (routeType : RouteType) (paramName : Seg)
       (handlers : List (String × Option Nat))
       (middlewares : List Nat)
       (static : List RouteNode)
       (param : Option RouteNode)
       (wildcard : Option RouteNode)

def RouteNode.path : RouteNode → Seg
  | .mk p _ _ _ _ _ _ _ => p

def RouteNode.routeType : RouteNode → RouteType
  | .mk _ rt _ _ _ _ _ _ => rt

def RouteNode.paramName : RouteNode → Seg
  | .mk _ _ pn _ _ _ _ _ => pn

def RouteNode.handlers : RouteNode → List (String × Option Nat)
  | .mk _ _ _ hs _ _ _ _ => hs

def RouteNode.middlewares : RouteNode → List Nat
  | .mk _ _ _ _ mw _ _ _ => mw

def RouteNode.static : RouteNode → List RouteNode
  | .mk _ _ _ _ _ st _ _ => st

def RouteNode.param : RouteNode → Option RouteNode
  | .mk _ _ _ _ _ _ pa _ => pa

def RouteNode.wildcard : RouteNode → Option RouteNode
  | .mk _ _ _ _ _ _ _ wc => wc


@[simp] theorem RouteNode.path_mk (p rt pn hs mw st pa wc) :
    (RouteNode.mk p rt pn hs mw st pa wc).path = p := rfl

@[simp] theorem RouteNode.routeType_mk (p rt pn hs mw st pa wc) :
    (RouteNode.mk p rt pn hs mw st pa wc).routeType = rt := rfl

@[simp] theorem RouteNode.paramName_mk (p rt pn hs mw st pa wc) :
    (RouteNode.mk p rt pn hs mw st pa wc).paramName = pn := rfl

@[simp] theorem RouteNode.handlers_mk (p rt pn hs mw st pa wc) :
    (RouteNode.mk p rt pn hs mw st pa wc).handlers = hs := rfl

@[simp] theorem RouteNode.middlewares_mk (p rt pn hs mw st pa wc) :
    (RouteNode.mk p rt pn hs mw st pa wc).middlewares = mw := rfl

@[simp] theorem RouteNode.static_mk (p rt pn hs mw st pa wc) :
    (RouteNode.mk p rt pn hs mw st pa wc).static = st := rfl

@[simp] theorem RouteNode.param_mk (p rt pn hs mw st pa wc) :
    (RouteNode.mk p rt pn hs mw st pa wc).param = pa := rfl

@[simp] theorem RouteNode.wildcard_mk (p rt pn hs mw st pa wc) :
    (RouteNode.mk p rt pn hs mw st pa wc).wildcard = wc := rfl

/-- `NewRouteNode` from route.go: a fresh node with empty maps and no
children (the parent argument is dropped, see the module comment). -/
def NewRouteNode (path : Seg) (routeType : RouteType) (paramName : Seg) : RouteNode :=
  .mk path routeType paramName [] [] [] none none

/-- Lookup in the verb-to-handler map: Go's `handler, exists := n.handlers[method]`. -/
def lookupH (hs : List (String × Option Nat)) (method : String) : Option (Option Nat) :=
  (hs.find? (fun kv => kv.1 == method)).map (·.2)

/-- Go map assignment `m[k] = v`: overwrite the binding of `k` if present,
otherwise add it. -/
def insertP (ps : Params) (k v : Seg) : Params :=
  if ps.any (fun kv => kv.1 == k) then
    ps.map (fun kv => if kv.1 == k then (k, v) else kv)
  else
    ps ++ [(k, v)]

/-- The split predicate of `strings.SplitN(path, "/", 2)`: characters before
the first slash. -/
def notSlash (c : Char) : Bool := c ≠ '/'

/-- `getPathSegment` from the engine routing sources: split a path into its
first slash-delimited segment and the remainder; the remainder keeps a
leading slash only when non-empty (`strings.SplitN(path, "/", 2)` followed
by re-prefixing the slash). -/
def getPathSegment (path : Seg) : Seg × Seg :=
  let segment := path.takeWhile notSlash
  let rest := path.dropWhile notSlash
  match rest with
  | [] => (segment, [])
  | _ :: tail => (segment, if tail = [] then [] else '/' :: tail)

/-- `isPathParam` from regex.go: the segment matches `^\{[^}]*\}$`. -/
def isPathParam (segment : Seg) : Bool :=
  match segment with
  | '{' :: rest => rest ≠ [] && rest.dropLast.all (fun c => c ≠ '}') && rest.getLast? == some '}'
  | _ => false

/-- `isWildcard` from regex.go: the segment matches `^\*[^/]*$`. -/
def isWildcard (segment : Seg) : Bool :=
  match segment with
  | '*' :: rest => rest.all (fun c => c ≠ '/')
  | _ => false

/-- `getRouteTypeFromSegment` from the engine routing sources: classify a
segment and extract the bound name (`segment[1:len-1]` for a parameter,
`segment[1:]` for a wildcard). -/
def getRouteTypeFromSegment (segment : Seg) : RouteType × Seg :=
  if isPathParam segment then (.Param, segment.tail.dropLast)
  else if isWildcard segment then (.Wildcard, segment.tail)
  else (.Static, [])

/-- Modelled from the spec: the segment classifier of the second
(`src/internal`) routing variant, whose implementation file is not under
`src/` — only its tests are (route_test.go expects `:id` to classify as a
parameter named `id` and `*path` as a wildcard named `path`).  Following
§4.1 of the spec: parameter segments are sigil-prefixed `:name`, wildcard
segments `*name`, anything else static. -/
def getRouteTypeFromSegmentColon (segment : Seg) : RouteType × Seg :=
  match segment with
  | ':' :: rest => (.Param, rest)
  | '*' :: rest => (.Wildcard, rest)
  | _ => (.Static, [])

/-- The leading-slash strip `if path[0] == '/' { path = path[1:] }` shared by
`find` and `addRoute`. -/
def stripLeadingSlash (path : Seg) : Seg :=
  if path.head? = some '/' then path.tail else path

theorem notSlash_eq_false {c : Char} (h : c = '/') : notSlash c = false := by
  simp [notSlash, h]

theorem notSlash_eq_true {c : Char} (h : c ≠ '/') : notSlash c = true := by
  simp [notSlash, h]

theorem eq_slash_of_notSlash {c : Char} (h : notSlash c = false) : c = '/' := by
  simpa [notSlash] using h

/-- The first component of `getPathSegment` together with the second is the
whole input, unless the input ends in a slash. -/
theorem getPathSegment_append (p : Seg) (hlast : p.getLast? ≠ some '/') :
    (getPathSegment p).1 ++ (getPathSegment p).2 = p := by
  unfold getPathSegment
  have hsplit := List.takeWhile_append_dropWhile (p := notSlash) (l := p)
  have hhead := List.head?_dropWhile_not notSlash p
  cases hrest : p.dropWhile notSlash with
  | nil =>
      rw [hrest] at hsplit
      simpa using hsplit
  | cons d tail =>
      rw [hrest] at hsplit hhead
      have hd : d = '/' := eq_slash_of_notSlash (by simpa using hhead)
      by_cases htail : tail = []
      · exfalso
        apply hlast
        subst htail
        rw [← hsplit, hd]
        simp [List.getLast?_append]
      · simp only [htail, if_neg, not_false_iff]
        rw [hd] at hsplit
        simpa using hsplit

theorem getPathSegment_snd_length_le (p : Seg) :
    (getPathSegment p).2.length ≤ p.length := by
  unfold getPathSegment
  have hlen : (p.dropWhile notSlash).length ≤ p.length :=
    (List.dropWhile_sublist notSlash).length_le
  cases hrest : p.dropWhile notSlash with
  | nil => simp
  | cons d tail =>
      rw [hrest] at hlen
      by_cases htail : tail = []
      · simp [htail]
      · simp only [htail, if_neg, not_false_iff]
        simpa using hlen

theorem getPathSegment_snd_length_lt (p : Seg) (hne : p ≠ [])
    (hhead : p.head? ≠ some '/') :
    (getPathSegment p).2.length < p.length := by
  match p, hne with
  | a :: l, _ =>
    have ha : a ≠ '/' := fun h => hhead (by simp [h])
    have hdrop : (a :: l).dropWhile notSlash = l.dropWhile notSlash := by
      rw [List.dropWhile_cons, notSlash_eq_true ha]
      simp
    have hlen : (l.dropWhile notSlash).length ≤ l.length :=
      (List.dropWhile_sublist notSlash).length_le
    unfold getPathSegment
    rw [hdrop]
    cases hrest : l.dropWhile notSlash with
    | nil => simp
    | cons d tail =>
        rw [hrest] at hlen
        by_cases htail : tail = []
        · simp [htail]
        · simp only [htail, if_neg, not_false_iff]
          simp only [List.length_cons] at hlen ⊢
          omega

/-- The combined strip-then-split step decreases the path length whenever the
path is neither empty nor the bare slash. -/
theorem strip_split_length_lt (path : Seg) (h : ¬(path = [] ∨ path = ['/'])) :
    (getPathSegment (stripLeadingSlash path)).2.length < path.length := by
  push_neg at h
  obtain ⟨hne, hslash⟩ := h
  unfold stripLeadingSlash
  by_cases hhead : path.head? = some '/'
  · simp only [hhead, if_pos rfl]
    have hlt : path.tail.length < path.length := by
      cases path with
      | nil => exact absurd rfl hne
      | cons a l => simp
    exact lt_of_le_of_lt (getPathSegment_snd_length_le _) hlt
  · simp only [hhead, if_neg, not_false_iff]
    exact getPathSegment_snd_length_lt path hne hhead

/-- The result `Route` struct from route.go (handler and middleware are the
opaque identifiers described in the module comment). -/
structure FoundRoute where
  Method : String
  Path : Seg
  Handler : Option Nat
  Middlewares : List Nat
  PathParams : Params
deriving DecidableEq, Repr

/-- `collectMiddlewares` from route.go: the Go code walks the parent chain
of the matched node, appending each node's local middleware after its
parent's collection.  With the parent chain given root-first as a list,
that recursion produces the root-first concatenation below. -/
def collectMiddlewares : List RouteNode → List Nat
  | [] => []
  | n :: rest => n.middlewares ++ collectMiddlewares rest

/-- `RouteNode.find` from route.go, the recursive matcher.  `anc` is the
chain of ancestors of `n`, root first (the Go parent pointers).  On success
the returned triple is (handler, collected middleware, path parameters); on
failure the payload is the parameter map as the Go code leaves it behind in
the shared `route` value.

The parameter-branch backtracking is translated faithfully, including the
reversed `maps.Copy(route.PathParams, originalPathParams)`: that call copies
the freshly made EMPTY snapshot into the live map (a no-op that leaves the
snapshot empty), so the later restore `route.PathParams = originalPathParams`
installs the empty map.

The wildcard fallthrough after the parameter branch is the same code as the
wildcard check without a parameter child; it is written out twice because Go
reaches it by falling through the `if n.param != nil` block. -/
def find (n : RouteNode) (anc : List RouteNode) (method : String) (path : Seg)
    (ps : Params) : Except Params (Option Nat × List Nat × Params) :=
  if path = [] ∨ path = ['/'] then
    match lookupH n.handlers method with
    | none => .error ps
    | some handler => .ok (handler, collectMiddlewares (anc ++ [n]), ps)
  else
    let path1 := stripLeadingSlash path
    let sr := getPathSegment path1
    let segment := sr.1
    let remaining := sr.2
    match n.static.find? (fun child => child.path == segment) with
    | some child => find child (anc ++ [n]) method remaining ps
    | none =>
      match n.param with
      | some pc =>
        -- Go: originalPathParams := make(map[...]); maps.Copy(route.PathParams, originalPathParams)
        -- copies FROM the empty snapshot INTO the live map, so the snapshot stays empty.
        let originalPathParams : Params := []
        let ps1 := insertP ps pc.paramName segment
        match find pc (anc ++ [n]) method remaining ps1 with
        | .ok result => .ok result
        | .error _ =>
          -- Go: route.PathParams = originalPathParams, then the wildcard check.
          match n.wildcard with
          | some wc =>
            let wildcardValue := segment ++ (if remaining ≠ [] then remaining else [])
            find wc (anc ++ [n]) method [] (insertP originalPathParams wc.paramName wildcardValue)
          | none => .error originalPathParams
      | none =>
        match n.wildcard with
        | some wc =>
          let wildcardValue := segment ++ (if remaining ≠ [] then remaining else [])
          find wc (anc ++ [n]) method [] (insertP ps wc.paramName wildcardValue)
        | none => .error ps
termination_by path.length
decreasing_by
  · exact strip_split_length_lt path (by assumption)
  · exact strip_split_length_lt path (by assumption)
  · simp only [List.length_nil]
    have := strip_split_length_lt path (by assumption)
    omega
  · simp only [List.length_nil]
    have := strip_split_length_lt path (by assumption)
    omega

/-- `RouteNode.Find` from route.go: run the matcher from the root with an
empty parameter map and package the result as a `Route`; a failed match is
reported as `RouteNotFound` (route.go wraps the inner error in a
`RouteError`; the wrapping adds no information relevant here). -/
def Find (n : RouteNode) (method : String) (path : Seg) : Except RErr FoundRoute :=
  match find n [] method path [] with
  | .ok (handler, mws, ps) =>
    .ok { Method := method, Path := path, Handler := handler,
          Middlewares := mws, PathParams := ps }
  | .error _ => .error .routeNotFound

/-- The first-match scan of Go's `for _, child := range n.static` loop,
returning the matching child together with the siblings before and after
it. -/
def splitAtFirst (segment : Seg) : List RouteNode →
    Option (List RouteNode × RouteNode × List RouteNode)
  | [] => none
  | c :: rest =>
    if c.path == segment then some ([], c, rest)
    else
      match splitAtFirst segment rest with
      | some (pre, x, post) => some (c :: pre, x, post)
      | none => none

/-- `RouteNode.addRoute` from the engine routing sources, parametrised by
the segment classifier `cls` (the two source variants differ only in that
classifier, see `getRouteTypeFromSegment` and
`getRouteTypeFromSegmentColon`).  The Go function mutates the tree in place
and returns the destination node; the embedding returns the updated tree
(the destination node is not needed by the claims, except through
`groupRegister` below). -/
def addRouteWith (cls : Seg → RouteType × Seg) (n : RouteNode) (method : String)
    (path : Seg) (handler : Option Nat) (mids : List Nat) : Except RErr RouteNode :=
  if path = [] ∨ path = ['/'] then
    match lookupH n.handlers method with
    | some _ => .error .routeAlreadyExists
    | none =>
      .ok (.mk n.path n.routeType n.paramName (n.handlers ++ [(method, handler)])
            (n.middlewares ++ mids) n.static n.param n.wildcard)
  else
    let path1 := stripLeadingSlash path
    let sr := getPathSegment path1
    let segment := sr.1
    let remaining := sr.2
    let tc := cls segment
    if tc.1 = .Param then
      let child := n.param.getD (NewRouteNode segment tc.1 tc.2)
      match addRouteWith cls child method remaining handler mids with
      | .ok c => .ok (.mk n.path n.routeType n.paramName n.handlers n.middlewares
                        n.static (some c) n.wildcard)
      | .error e => .error e
    else if tc.1 = .Wildcard then
      let child := n.wildcard.getD (NewRouteNode segment tc.1 tc.2)
      match addRouteWith cls child method remaining handler mids with
      | .ok c => .ok (.mk n.path n.routeType n.paramName n.handlers n.middlewares
                        n.static n.param (some c))
      | .error e => .error e
    else
      match splitAtFirst segment n.static with
      | some (pre, c, post) =>
        match addRouteWith cls c method remaining handler mids with
        | .ok c2 => .ok (.mk n.path n.routeType n.paramName n.handlers n.middlewares
                          (pre ++ c2 :: post) n.param n.wildcard)
        | .error e => .error e
      | none =>
        let child := NewRouteNode segment .Static []
        match addRouteWith cls child method remaining handler mids with
        | .ok c2 => .ok (.mk n.path n.routeType n.paramName n.handlers n.middlewares
                          (n.static ++ [c2]) n.param n.wildcard)
        | .error e => .error e
termination_by path.length
decreasing_by
  all_goals exact strip_split_length_lt path (by assumption)

/-- `RouteNode.addRoute` with the classifier that is in the engine sources
(brace-delimited parameters). -/
def addRoute (n : RouteNode) (method : String) (path : Seg) (handler : Option Nat)
    (mids : List Nat) : Except RErr RouteNode :=
  addRouteWith getRouteTypeFromSegment n method path handler mids

/-- Modelled from the spec: the insertion of the second (`src/internal`)
routing variant, whose Builder implementation is not under `src/` — only
route_test.go is.  By §4.2 of the spec it is the same insertion algorithm
with the sigil classifier. -/
def addRouteColon (n : RouteNode) (method : String) (path : Seg) (handler : Option Nat)
    (mids : List Nat) : Except RErr RouteNode :=
  addRouteWith getRouteTypeFromSegmentColon n method path handler mids

/-- A registration request: verb, path, handler, middleware. -/
structure Reg where
  method : String
  path : Seg
  handler : Option Nat
  mids : List Nat

/-- Apply a sequence of registrations to a tree; a registration that errors
leaves the tree as it was (`RouteAlreadyExists` aborts that step without
mutating existing state). -/
def applyRegsWith (cls : Seg → RouteType × Seg) : RouteNode → List Reg → RouteNode
  | n, [] => n
  | n, r :: rest =>
    applyRegsWith cls
      (match addRouteWith cls n r.method r.path r.handler r.mids with
       | .ok t => t
       | .error _ => n) rest

/-- The root node as created by `engine.New`:
`routes.NewRouteNode("", routes.RouteTypeNone, "", nil)`. -/
def rootNode : RouteNode := NewRouteNode [] .None []

/-- `RouteNode.Group` composed with a subsequent registration on the node it
returns, fused into one recursion.  In Go, `Group(prefix)` is
`Route("", prefix, nil)`: it walks (and creates) the nodes of `prefix`,
binds the `nil` handler under the empty verb `""` at the destination, and
returns a pointer to that destination; a later registration on the returned
pointer mutates that subtree in place.  Because the walk's only mutations
are node creation along the spine plus the `""` binding at the destination,
and the later registration mutates only the destination's subtree, the
composite is this single recursion (the walk is the `addRoute` walk with the
engine classifier). -/
def groupRegister (n : RouteNode) (pfx : Seg) (method : String) (path : Seg)
    (handler : Option Nat) (mids : List Nat) : Except RErr RouteNode :=
  if pfx = [] ∨ pfx = ['/'] then
    -- Group's destination: addRoute binds handlers[""] = nil here (or fails),
    -- then the registration proper runs on this node.
    match lookupH n.handlers "" with
    | some _ => .error .routeAlreadyExists
    | none =>
      addRoute (.mk n.path n.routeType n.paramName (n.handlers ++ [("", none)])
                  n.middlewares n.static n.param n.wildcard) method path handler mids
  else
    let pfx1 := stripLeadingSlash pfx
    let sr := getPathSegment pfx1
    let segment := sr.1
    let remaining := sr.2
    let tc := getRouteTypeFromSegment segment
    if tc.1 = .Param then
      let child := n.param.getD (NewRouteNode segment tc.1 tc.2)
      match groupRegister child remaining method path handler mids with
      | .ok c => .ok (.mk n.path n.routeType n.paramName n.handlers n.middlewares
                        n.static (some c) n.wildcard)
      | .error e => .error e
    else if tc.1 = .Wildcard then
      let child := n.wildcard.getD (NewRouteNode segment tc.1 tc.2)
      match groupRegister child remaining method path handler mids with
      | .ok c => .ok (.mk n.path n.routeType n.paramName n.handlers n.middlewares
                        n.static n.param (some c))
      | .error e => .error e
    else
      match splitAtFirst segment n.static with
      | some (pre, c, post) =>
        match groupRegister c remaining method path handler mids with
        | .ok c2 => .ok (.mk n.path n.routeType n.paramName n.handlers n.middlewares
                          (pre ++ c2 :: post) n.param n.wildcard)
        | .error e => .error e
      | none =>
        let child := NewRouteNode segment .Static []
        match groupRegister child remaining method path handler mids with
        | .ok c2 => .ok (.mk n.path n.routeType n.paramName n.handlers n.middlewares
                          (n.static ++ [c2]) n.param n.wildcard)
        | .error e => .error e
termination_by pfx.length
decreasing_by
  all_goals exact strip_split_length_lt pfx (by assumption)

/-! ### Helper lemmas about the small operations -/

theorem lookupH_append_of_none {hs : List (String × Option Nat)} {m : String}
    (h : lookupH hs m = none) (x : Option Nat) :
    lookupH (hs ++ [(m, x)]) m = some x := by
  unfold lookupH at h ⊢
  rw [List.find?_append]
  cases hfind : hs.find? (fun kv => kv.1 == m) with
  | some kv => rw [hfind] at h; simp at h
  | none => simp

theorem lookupH_not_mem {hs : List (String × Option Nat)} {m : String}
    (h : lookupH hs m = none) : m ∉ hs.map Prod.fst := by
  intro hmem
  obtain ⟨kv, hkv, hfst⟩ := List.mem_map.mp hmem
  unfold lookupH at h
  cases hfind : hs.find? (fun kv => kv.1 == m) with
  | some kv2 => rw [hfind] at h; simp at h
  | none =>
      have := List.find?_eq_none.mp hfind kv hkv
      simp [hfst] at this

theorem splitAtFirst_some {segment : Seg} :
    ∀ {l : List RouteNode} {pre : List RouteNode} {c : RouteNode} {post : List RouteNode},
    splitAtFirst segment l = some (pre, c, post) →
    l = pre ++ c :: post ∧ c.path = segment ∧ ∀ x ∈ pre, x.path ≠ segment := by
  intro l
  induction l with
  | nil => intro pre c post h; simp [splitAtFirst] at h
  | cons a rest ih =>
      intro pre c post h
      unfold splitAtFirst at h
      by_cases ha : a.path == segment
      · rw [if_pos ha] at h
        simp only [Option.some.injEq, Prod.mk.injEq] at h
        obtain ⟨h1, h2, h3⟩ := h
        subst h1; subst h2; subst h3
        refine ⟨rfl, by simpa using ha, by simp⟩
      · rw [if_neg ha] at h
        cases hrec : splitAtFirst segment rest with
        | none => rw [hrec] at h; exact absurd h (by simp)
        | some trip =>
            obtain ⟨pre2, c2, post2⟩ := trip
            rw [hrec] at h
            simp only [Option.some.injEq, Prod.mk.injEq] at h
            obtain ⟨h1, h2, h3⟩ := h
            subst h1; subst h2; subst h3
            obtain ⟨hl, hc, hpre⟩ := ih hrec
            refine ⟨by rw [hl]; rfl, hc, ?_⟩
            intro x hx
            rcases List.mem_cons.mp hx with hx | hx
            · subst hx; simpa using ha
            · exact hpre x hx

theorem splitAtFirst_none {segment : Seg} :
    ∀ {l : List RouteNode}, splitAtFirst segment l = none → ∀ x ∈ l, x.path ≠ segment := by
  intro l
  induction l with
  | nil => intro _ x hx; simp at hx
  | cons a rest ih =>
      intro h x hx
      unfold splitAtFirst at h
      by_cases ha : a.path == segment
      · rw [if_pos ha] at h; simp at h
      · rw [if_neg ha] at h
        rcases List.mem_cons.mp hx with hx | hx
        · subst hx; simpa using ha
        · cases hrec : splitAtFirst segment rest with
          | some trip => rw [hrec] at h; obtain ⟨p2, c2, q2⟩ := trip; simp at h
          | none => exact ih hrec x hx

theorem splitAtFirst_of_parts {segment : Seg} :
    ∀ {pre : List RouteNode} {c : RouteNode} {post : List RouteNode},
    (∀ x ∈ pre, x.path ≠ segment) → c.path = segment →
    splitAtFirst segment (pre ++ c :: post) = some (pre, c, post) := by
  intro pre
  induction pre with
  | nil =>
      intro c post _ hc
      rw [List.nil_append]
      unfold splitAtFirst
      rw [if_pos (by simpa using hc)]
  | cons a rest ih =>
      intro c post hpre hc
      have ha : ¬(a.path == segment) := by
        simpa using hpre a (by simp)
      show splitAtFirst segment (a :: (rest ++ c :: post)) = _
      unfold splitAtFirst
      rw [if_neg ha, ih (fun x hx => hpre x (by simp [hx])) hc]

theorem collectMiddlewares_append (a b : List RouteNode) :
    collectMiddlewares (a ++ b) = collectMiddlewares a ++ collectMiddlewares b := by
  induction a with
  | nil => simp [collectMiddlewares]
  | cons n rest ih => simp [collectMiddlewares, ih]

theorem collectMiddlewares_eq_flatten (l : List RouteNode) :
    collectMiddlewares l = (l.map RouteNode.middlewares).flatten := by
  induction l with
  | nil => simp [collectMiddlewares]
  | cons n rest ih => simp [collectMiddlewares, ih]

/-! ### C5: whole path consumed, verb unbound -/

/-- C5: for every lookup in which structural matching consumes the whole
path at some node (`find` is invoked at that node with an empty or bare-`/`
path) but the node has no handler bound for the requested verb, `find`
fails, and at the top level `Find` returns the `RouteNotFound` error and no
`Route`. -/
theorem c5_matched_path_unbound_verb_not_found (n : RouteNode) (anc : List RouteNode)
    (method : String) (path : Seg) (ps : Params)
    (hpath : path = [] ∨ path = ['/'])
    (hh : lookupH n.handlers method = none) :
    find n anc method path ps = .error ps ∧
    Find n method path = .error .routeNotFound := by
  have h1 : ∀ (anc2 : List RouteNode) (ps2 : Params),
      find n anc2 method path ps2 = .error ps2 := by
    intro anc2 ps2
    rw [find.eq_def, if_pos hpath, hh]
  refine ⟨h1 anc ps, ?_⟩
  unfold Find
  rw [h1 [] []]

theorem c5_matched_path_unbound_verb_not_found_witness :
    ([] = ([] : Seg) ∨ ([] : Seg) = ['/']) ∧
    lookupH rootNode.handlers "GET" = none ∧
    (find rootNode [] "GET" [] [] = .error [] ∧
      Find rootNode "GET" [] = .error .routeNotFound) :=
  ⟨Or.inl rfl, by decide,
    c5_matched_path_unbound_verb_not_found rootNode [] "GET" [] [] (Or.inl rfl) (by decide)⟩

/-! ### C10: a static text match commits -/

/-- C10: whenever some static child's segment text equals the current path
segment, the matcher returns the result of descending into that child
directly — the result of `find` at the node IS the result of `find` in the
static subtree, so a failure inside the static subtree is returned as-is and
the parameter and wildcard children are never attempted for that segment. -/
theorem c10_static_match_commits (n child : RouteNode) (anc : List RouteNode)
    (method : String) (path : Seg) (ps : Params)
    (hpath : ¬(path = [] ∨ path = ['/']))
    (hfound : n.static.find?
      (fun c => c.path == (getPathSegment (stripLeadingSlash path)).1) = some child) :
    find n anc method path ps =
      find child (anc ++ [n]) method (getPathSegment (stripLeadingSlash path)).2 ps := by
  rw [find.eq_def, if_neg hpath]
  simp only [hfound]

/-- A node whose static child `users` matches but whose subtree cannot
satisfy the lookup, while a parameter child with a bound handler exists. -/
def c10Child : RouteNode := .mk "users".toList .Static [] [] [] [] none none

def c10Node : RouteNode :=
  .mk [] .None [] [] [] [c10Child]
    (some (.mk "{x}".toList .Param "x".toList [("GET", some 5)] [] [] none none)) none

theorem c10_static_match_commits_witness :
    (¬("/users".toList = [] ∨ "/users".toList = ['/'])) ∧
    c10Node.static.find?
      (fun c => c.path == (getPathSegment (stripLeadingSlash "/users".toList)).1) = some c10Child ∧
    find c10Node [] "GET" "/users".toList [] =
      find c10Child [c10Node] "GET" (getPathSegment (stripLeadingSlash "/users".toList)).2 [] :=
  ⟨by decide, by rfl,
    c10_static_match_commits c10Node c10Child [] "GET" "/users".toList [] (by decide) (by rfl)⟩

/-! ### C6: a missing leading slash is irrelevant -/

/-- C6: for every path `p` that does not begin with a slash, insertion of
`p` (under either segment classifier) and lookup of `p` behave identically
to insertion and lookup of `"/" ++ p`: the two insertions produce the same
tree and the two lookups the same result (hence the same handler,
middleware chain and parameter mapping). -/
theorem c6_leading_slash_irrelevant (cls : Seg → RouteType × Seg) (n : RouteNode)
    (anc : List RouteNode) (method : String) (p : Seg) (ps : Params)
    (handler : Option Nat) (mids : List Nat)
    (hhead : p.head? ≠ some '/') :
    find n anc method ('/' :: p) ps = find n anc method p ps ∧
    addRouteWith cls n method ('/' :: p) handler mids =
      addRouteWith cls n method p handler mids := by
  cases p with
  | nil =>
      constructor
      · rw [find.eq_def]
        conv_rhs => rw [find.eq_def]
        simp
      · rw [addRouteWith.eq_def]
        conv_rhs => rw [addRouteWith.eq_def]
        simp
  | cons a l =>
      have ha : a ≠ '/' := fun h => hhead (by simp [h])
      have hterm1 : ¬(('/' :: a :: l) = [] ∨ ('/' :: a :: l) = ['/']) := by simp
      have hterm2 : ¬((a :: l) = [] ∨ (a :: l) = ['/']) := by simp [ha]
      have hstrip1 : stripLeadingSlash ('/' :: a :: l) = a :: l := by
        simp [stripLeadingSlash]
      have hstrip2 : stripLeadingSlash (a :: l) = a :: l := by
        simp [stripLeadingSlash, ha]
      constructor
      · rw [find.eq_def, if_neg hterm1, hstrip1]
        conv_rhs => rw [find.eq_def]
        rw [if_neg hterm2, hstrip2]
      · rw [addRouteWith.eq_def, if_neg hterm1, hstrip1]
        conv_rhs => rw [addRouteWith.eq_def]
        rw [if_neg hterm2, hstrip2]

theorem c6_leading_slash_irrelevant_witness :
    ("users".toList.head? ≠ some '/') ∧
    (find rootNode [] "GET" ('/' :: "users".toList) [] =
        find rootNode [] "GET" "users".toList [] ∧
      addRouteWith getRouteTypeFromSegment rootNode "GET" ('/' :: "users".toList)
          (some 1) [] =
        addRouteWith getRouteTypeFromSegment rootNode "GET" "users".toList (some 1) []) :=
  ⟨by decide,
    c6_leading_slash_irrelevant getRouteTypeFromSegment rootNode [] "GET" "users".toList []
      (some 1) [] (by decide)⟩

/-! ### C1: the backtracking restore does not restore -/

/-- Routes `GET /{a}/{b}/end` and `GET /{a}/*w`, built by the engine
insertion: the `{a}` node has both a parameter child (`{b}`) and a wildcard
child (`*w`). -/
def c1Tree : RouteNode :=
  applyRegsWith getRouteTypeFromSegment rootNode
    [⟨"GET", "/{a}/{b}/end".toList, some 1, []⟩,
     ⟨"GET", "/{a}/*w".toList, some 2, []⟩]

/-- C1 (the code's actual behaviour at the failing input): looking up
`GET /x/y/z` descends through the parameter child `{a}` (capturing
`a = "x"`), fails in the parameter child `{b}` of the `{a}` node, and then
matches the wildcard `*w`.  The claim requires the capture mapping to be
restored to its exact pre-attempt snapshot `{a: "x"}` before the wildcard is
tried, so the result should carry `{a: "x", w: "y/z"}`; the code instead
installs the erroneously empty snapshot (its `maps.Copy` copies from the
empty snapshot into the live map rather than the reverse), so the ancestor
capture `a = "x"` is lost and the result carries only `{w: "y/z"}`. -/
theorem c1_param_backtrack_wipes_ancestor_captures :
    Find c1Tree "GET" "/x/y/z".toList =
      .ok { Method := "GET", Path := "/x/y/z".toList, Handler := some 2,
            Middlewares := [], PathParams := [("w".toList, "y/z".toList)] } := by
  simp [c1Tree, applyRegsWith, addRoute, addRouteWith, Find, find, rootNode, NewRouteNode,
    lookupH, insertP, getPathSegment, getRouteTypeFromSegment, isPathParam, isWildcard,
    stripLeadingSlash, splitAtFirst, collectMiddlewares, notSlash, String.toList,
    RouteNode.path, RouteNode.routeType, RouteNode.paramName, RouteNode.handlers,
    RouteNode.middlewares, RouteNode.static, RouteNode.param, RouteNode.wildcard]

/-! ### C2: strict child priority: static, then parameter, then wildcard -/

/-- `/users/admin`, `/users/:id` and `/users/*rest` all registered under
`GET` (using the sigil classifier of the internal variant, whose Builder is
modelled from the spec — see `getRouteTypeFromSegmentColon`). -/
def c2Tree : RouteNode :=
  applyRegsWith getRouteTypeFromSegmentColon rootNode
    [⟨"GET", "/users/admin".toList, some 1, []⟩,
     ⟨"GET", "/users/:id".toList, some 2, []⟩,
     ⟨"GET", "/users/*rest".toList, some 3, []⟩]

/-- C2: child categories are tried static-first, then parameter, then
wildcard: `/users/admin` resolves to the static handler with an empty
parameter mapping, `/users/42` to the parameter handler with `{id: "42"}`,
and `/users/a/b/c` to the wildcard handler with `{rest: "a/b/c"}`. -/
theorem c2_child_priority_static_param_wildcard :
    Find c2Tree "GET" "/users/admin".toList =
      .ok { Method := "GET", Path := "/users/admin".toList, Handler := some 1,
            Middlewares := [], PathParams := [] } ∧
    Find c2Tree "GET" "/users/42".toList =
      .ok { Method := "GET", Path := "/users/42".toList, Handler := some 2,
            Middlewares := [], PathParams := [("id".toList, "42".toList)] } ∧
    Find c2Tree "GET" "/users/a/b/c".toList =
      .ok { Method := "GET", Path := "/users/a/b/c".toList, Handler := some 3,
            Middlewares := [], PathParams := [("rest".toList, "a/b/c".toList)] } := by
  refine ⟨?_, ?_, ?_⟩ <;>
    simp [c2Tree, applyRegsWith, addRouteWith, Find, find, rootNode, NewRouteNode,
      lookupH, insertP, getPathSegment, getRouteTypeFromSegmentColon,
      stripLeadingSlash, splitAtFirst, collectMiddlewares, notSlash, String.toList,
      RouteNode.path, RouteNode.routeType, RouteNode.paramName, RouteNode.handlers,
      RouteNode.middlewares, RouteNode.static, RouteNode.param, RouteNode.wildcard]

/-! ### C4: duplicate registrations are rejected -/

theorem addRouteWith_preserves_head (cls : Seg → RouteType × Seg) {n t : RouteNode}
    {method : String} {path : Seg} {handler : Option Nat} {mids : List Nat}
    (h : addRouteWith cls n method path handler mids = .ok t) :
    t.path = n.path ∧ t.routeType = n.routeType ∧ t.paramName = n.paramName := by
  rw [addRouteWith.eq_def] at h
  dsimp only at h
  repeat' split at h
  all_goals cases h
  all_goals simp

theorem addRouteWith_dup_terminal (cls : Seg → RouteType × Seg) {path : Seg}
    (hterm : path = [] ∨ path = ['/'])
    {t t1 : RouteNode} {method : String} {h1 h2 : Option Nat} {m1 m2 : List Nat}
    (hok : addRouteWith cls t method path h1 m1 = .ok t1) :
    addRouteWith cls t1 method path h2 m2 = .error .routeAlreadyExists := by
  rw [addRouteWith.eq_def] at hok
  rw [if_pos hterm] at hok
  cases hl : lookupH t.handlers method with
  | some x => rw [hl] at hok; cases hok
  | none =>
      rw [hl] at hok
      cases hok
      rw [addRouteWith.eq_def, if_pos hterm]
      have hl2 : lookupH (RouteNode.mk t.path t.routeType t.paramName
          (t.handlers ++ [(method, h1)]) (t.middlewares ++ m1) t.static t.param
          t.wildcard).handlers method = some h1 := by
        simpa [RouteNode.handlers] using lookupH_append_of_none hl h1
      rw [hl2]

theorem addRouteWith_dup_aux (cls : Seg → RouteType × Seg) :
    ∀ (k : Nat) (path : Seg), path.length ≤ k →
    ∀ (t t1 : RouteNode) (method : String) (h1 h2 : Option Nat) (m1 m2 : List Nat),
    addRouteWith cls t method path h1 m1 = .ok t1 →
    addRouteWith cls t1 method path h2 m2 = .error .routeAlreadyExists := by
  intro k
  induction k with
  | zero =>
      intro path hlen t t1 method h1 h2 m1 m2 hok
      have hpath : path = [] := List.length_eq_zero.mp (Nat.le_zero.mp hlen)
      subst hpath
      exact addRouteWith_dup_terminal cls (Or.inl rfl) hok
  | succ k ih =>
      intro path hlen t t1 method h1 h2 m1 m2 hok
      by_cases hterm : path = [] ∨ path = ['/']
      · exact addRouteWith_dup_terminal cls hterm hok
      · have hlt : (getPathSegment (stripLeadingSlash path)).2.length < path.length :=
          strip_split_length_lt path hterm
        rw [addRouteWith.eq_def] at hok
        rw [if_neg hterm] at hok
        dsimp only at hok
        rw [addRouteWith.eq_def, if_neg hterm]
        dsimp only
        by_cases hp : (cls (getPathSegment (stripLeadingSlash path)).1).1 = RouteType.Param
        · rw [if_pos hp] at hok ⊢
          cases hrec : addRouteWith cls
              ((t.param).getD (NewRouteNode (getPathSegment (stripLeadingSlash path)).1
                (cls (getPathSegment (stripLeadingSlash path)).1).1
                (cls (getPathSegment (stripLeadingSlash path)).1).2)) method
              (getPathSegment (stripLeadingSlash path)).2 h1 m1 with
          | error e => rw [hrec] at hok; cases hok
          | ok c =>
              rw [hrec] at hok
              cases hok
              simp only [RouteNode.param_mk, Option.getD_some]
              rw [ih _ (by omega) _ _ method h1 h2 m1 m2 hrec]
        · rw [if_neg hp] at hok ⊢
          by_cases hw : (cls (getPathSegment (stripLeadingSlash path)).1).1 = RouteType.Wildcard
          · rw [if_pos hw] at hok ⊢
            cases hrec : addRouteWith cls
                ((t.wildcard).getD (NewRouteNode (getPathSegment (stripLeadingSlash path)).1
                  (cls (getPathSegment (stripLeadingSlash path)).1).1
                  (cls (getPathSegment (stripLeadingSlash path)).1).2)) method
                (getPathSegment (stripLeadingSlash path)).2 h1 m1 with
            | error e => rw [hrec] at hok; cases hok
            | ok c =>
                rw [hrec] at hok
                cases hok
                simp only [RouteNode.wildcard_mk, Option.getD_some]
                rw [ih _ (by omega) _ _ method h1 h2 m1 m2 hrec]
          · rw [if_neg hw] at hok ⊢
            cases hsplit : splitAtFirst (getPathSegment (stripLeadingSlash path)).1 t.static with
            | some trip =>
                obtain ⟨pre, c, post⟩ := trip
                rw [hsplit] at hok
                dsimp only at hok
                cases hrec : addRouteWith cls c method
                    (getPathSegment (stripLeadingSlash path)).2 h1 m1 with
                | error e => rw [hrec] at hok; cases hok
                | ok c2 =>
                    rw [hrec] at hok
                    cases hok
                    obtain ⟨hl2, hc2, hpre⟩ := splitAtFirst_some hsplit
                    have hc2path : c2.path = (getPathSegment (stripLeadingSlash path)).1 := by
                      rw [(addRouteWith_preserves_head cls hrec).1, hc2]
                    have hsplit2 : splitAtFirst (getPathSegment (stripLeadingSlash path)).1
                        (pre ++ c2 :: post) = some (pre, c2, post) :=
                      splitAtFirst_of_parts hpre hc2path
                    simp only [RouteNode.static_mk]
                    rw [hsplit2]
                    dsimp only
                    rw [ih _ (by omega) _ _ method h1 h2 m1 m2 hrec]
            | none =>
                rw [hsplit] at hok
                dsimp only at hok
                cases hrec : addRouteWith cls
                    (NewRouteNode (getPathSegment (stripLeadingSlash path)).1 RouteType.Static [])
                    method (getPathSegment (stripLeadingSlash path)).2 h1 m1 with
                | error e => rw [hrec] at hok; cases hok
                | ok c2 =>
                    rw [hrec] at hok
                    cases hok
                    have hc2path : c2.path = (getPathSegment (stripLeadingSlash path)).1 := by
                      rw [(addRouteWith_preserves_head cls hrec).1]
                      rfl
                    have hsplit2 : splitAtFirst (getPathSegment (stripLeadingSlash path)).1
                        (t.static ++ [c2]) = some (t.static, c2, []) :=
                      splitAtFirst_of_parts (splitAtFirst_none hsplit) hc2path
                    simp only [RouteNode.static_mk]
                    rw [hsplit2]
                    dsimp only
                    rw [ih _ (by omega) _ _ method h1 h2 m1 m2 hrec]

/-- C4: a second registration of the same (verb, path) pair — under either
segment classifier — is rejected with `RouteAlreadyExists`.  The embedding
is purely functional, so the error return carries no tree at all: the tree
produced by the first registration stays in use, its handler binding and
middleware sequence untouched (the Go code likewise returns before any
mutation). -/
theorem c4_duplicate_registration_rejected (cls : Seg → RouteType × Seg)
    (t t1 : RouteNode) (method : String) (path : Seg)
    (h1 h2 : Option Nat) (m1 m2 : List Nat)
    (hok : addRouteWith cls t method path h1 m1 = .ok t1) :
    addRouteWith cls t1 method path h2 m2 = .error .routeAlreadyExists :=
  addRouteWith_dup_aux cls path.length path (le_refl _) t t1 method h1 h2 m1 m2 hok

/-- The tree after registering `GET /users` on a fresh root. -/
def c4Tree1 : RouteNode :=
  .mk [] .None [] [] []
    [.mk "users".toList .Static [] [("GET", some 1)] [] [] none none] none none

theorem c4_duplicate_registration_rejected_witness :
    (addRoute rootNode "GET" "/users".toList (some 1) [] = .ok c4Tree1) ∧
    addRoute c4Tree1 "GET" "/users".toList (some 9) [] = .error .routeAlreadyExists :=
  ⟨by
    simp [addRoute, addRouteWith, rootNode, NewRouteNode, lookupH, getPathSegment,
      getRouteTypeFromSegment, isPathParam, isWildcard, stripLeadingSlash, splitAtFirst,
      notSlash, String.toList, c4Tree1,
      RouteNode.path, RouteNode.routeType, RouteNode.paramName, RouteNode.handlers,
      RouteNode.middlewares, RouteNode.static, RouteNode.param, RouteNode.wildcard],
   c4_duplicate_registration_rejected getRouteTypeFromSegment rootNode c4Tree1 "GET"
     "/users".toList (some 1) (some 9) [] []
     (by
       simp [addRoute, addRouteWith, rootNode, NewRouteNode, lookupH, getPathSegment,
         getRouteTypeFromSegment, isPathParam, isWildcard, stripLeadingSlash, splitAtFirst,
         notSlash, String.toList, c4Tree1,
         RouteNode.path, RouteNode.routeType, RouteNode.paramName, RouteNode.handlers,
         RouteNode.middlewares, RouteNode.static, RouteNode.param, RouteNode.wildcard])⟩

/-! ### C7: structural invariants of every reachable tree -/

/-- The structural invariants of a routing tree node, recursively: the
verb-to-handler map has no duplicate verb keys, the static children have
pairwise distinct segment texts, and all children satisfy the same
invariants.  ("At most one parameter child" and "at most one wildcard
child" are structural in the embedding, as in the Go struct: `param` and
`wildcard` are single optional fields.) -/
inductive TreeInv : RouteNode → Prop where
  | mk (p : Seg) (rt : RouteType) (pn : Seg) (hs : List (String × Option Nat))
      (mw : List Nat) (st : List RouteNode) (pa wc : Option RouteNode) :
      (hs.map Prod.fst).Nodup →
      (st.map RouteNode.path).Nodup →
      (∀ c, c ∈ st → TreeInv c) →
      (∀ c, pa = some c → TreeInv c) →
      (∀ c, wc = some c → TreeInv c) →
      TreeInv (.mk p rt pn hs mw st pa wc)

theorem TreeInv_NewRouteNode (p : Seg) (rt : RouteType) (pn : Seg) :
    TreeInv (NewRouteNode p rt pn) := by
  refine TreeInv.mk _ _ _ _ _ _ _ _ ?_ ?_ ?_ ?_ ?_ <;> simp

theorem addRouteWith_inv_terminal (cls : Seg → RouteType × Seg) {path : Seg}
    (hterm : path = [] ∨ path = ['/'])
    {t t1 : RouteNode} {method : String} {h1 : Option Nat} {m1 : List Nat}
    (hinv : TreeInv t) (hok : addRouteWith cls t method path h1 m1 = .ok t1) : TreeInv t1 := by
  obtain ⟨p, rt, pn, hs, mw, st, pa, wc⟩ := t
  rw [addRouteWith.eq_def, if_pos hterm] at hok
  cases hl : lookupH (RouteNode.mk p rt pn hs mw st pa wc).handlers method with
  | some x => rw [hl] at hok; cases hok
  | none =>
      rw [hl] at hok
      cases hok
      cases hinv with
      | mk _ _ _ _ _ _ _ _ hnodup hpaths hmem hpa hwc =>
        simp only [RouteNode.handlers_mk, RouteNode.middlewares_mk, RouteNode.static_mk,
          RouteNode.param_mk, RouteNode.wildcard_mk]
        refine TreeInv.mk _ _ _ _ _ _ _ _ ?_ hpaths hmem hpa hwc
        have hnin : method ∉ hs.map Prod.fst :=
          lookupH_not_mem (by simpa using hl)
        simp only [List.map_append, List.map_cons, List.map_nil]
        exact List.Nodup.append hnodup (List.nodup_singleton _)
          (by simpa [List.disjoint_left] using hnin)

theorem addRouteWith_inv_aux (cls : Seg → RouteType × Seg) :
    ∀ (k : Nat) (path : Seg), path.length ≤ k →
    ∀ (t t1 : RouteNode) (method : String) (h1 : Option Nat) (m1 : List Nat),
    TreeInv t → addRouteWith cls t method path h1 m1 = .ok t1 → TreeInv t1 := by
  intro k
  induction k with
  | zero =>
      intro path hlen t t1 method h1 m1 hinv hok
      have hpath : path = [] := List.length_eq_zero.mp (Nat.le_zero.mp hlen)
      subst hpath
      exact addRouteWith_inv_terminal cls (Or.inl rfl) hinv hok
  | succ k ih =>
      intro path hlen t t1 method h1 m1 hinv hok
      by_cases hterm : path = [] ∨ path = ['/']
      · exact addRouteWith_inv_terminal cls hterm hinv hok
      · have hlt : (getPathSegment (stripLeadingSlash path)).2.length < path.length :=
          strip_split_length_lt path hterm
        obtain ⟨p, rt, pn, hs, mw, st, pa, wc⟩ := t
        cases hinv with
        | mk _ _ _ _ _ _ _ _ hnodup hpaths hmem hpa hwc =>
        rw [addRouteWith.eq_def, if_neg hterm] at hok
        dsimp only at hok
        simp only [RouteNode.handlers_mk, RouteNode.middlewares_mk, RouteNode.static_mk,
          RouteNode.param_mk, RouteNode.wildcard_mk, RouteNode.path_mk,
          RouteNode.routeType_mk, RouteNode.paramName_mk] at hok
        by_cases hp : (cls (getPathSegment (stripLeadingSlash path)).1).1 = RouteType.Param
        · rw [if_pos hp] at hok
          cases hparm : pa with
          | some pc =>
              rw [hparm] at hok
              simp only [Option.getD_some] at hok
              cases hrec : addRouteWith cls pc method
                  (getPathSegment (stripLeadingSlash path)).2 h1 m1 with
              | error e => rw [hrec] at hok; cases hok
              | ok c =>
                  rw [hrec] at hok
                  cases hok
                  have hc : TreeInv c := ih _ (by omega) _ _ method h1 m1 (hpa pc hparm) hrec
                  exact TreeInv.mk _ _ _ _ _ _ _ _ hnodup hpaths hmem
                    (fun c' hc' => by cases hc'; exact hc) hwc
          | none =>
              rw [hparm] at hok
              simp only [Option.getD_none] at hok
              cases hrec : addRouteWith cls
                  (NewRouteNode (getPathSegment (stripLeadingSlash path)).1
                    (cls (getPathSegment (stripLeadingSlash path)).1).1
                    (cls (getPathSegment (stripLeadingSlash path)).1).2) method
                  (getPathSegment (stripLeadingSlash path)).2 h1 m1 with
              | error e => rw [hrec] at hok; cases hok
              | ok c =>
                  rw [hrec] at hok
                  cases hok
                  have hc : TreeInv c := ih _ (by omega) _ _ method h1 m1
                    (TreeInv_NewRouteNode _ _ _) hrec
                  exact TreeInv.mk _ _ _ _ _ _ _ _ hnodup hpaths hmem
                    (fun c' hc' => by cases hc'; exact hc) hwc
        · rw [if_neg hp] at hok
          by_cases hw : (cls (getPathSegment (stripLeadingSlash path)).1).1 = RouteType.Wildcard
          · rw [if_pos hw] at hok
            cases hwild : wc with
            | some pc =>
                rw [hwild] at hok
                simp only [Option.getD_some] at hok
                cases hrec : addRouteWith cls pc method
                    (getPathSegment (stripLeadingSlash path)).2 h1 m1 with
                | error e => rw [hrec] at hok; cases hok
                | ok c =>
                    rw [hrec] at hok
                    cases hok
                    have hc : TreeInv c := ih _ (by omega) _ _ method h1 m1 (hwc pc hwild) hrec
                    exact TreeInv.mk _ _ _ _ _ _ _ _ hnodup hpaths hmem hpa
                      (fun c' hc' => by cases hc'; exact hc)
            | none =>
                rw [hwild] at hok
                simp only [Option.getD_none] at hok
                cases hrec : addRouteWith cls
                    (NewRouteNode (getPathSegment (stripLeadingSlash path)).1
                      (cls (getPathSegment (stripLeadingSlash path)).1).1
                      (cls (getPathSegment (stripLeadingSlash path)).1).2) method
                    (getPathSegment (stripLeadingSlash path)).2 h1 m1 with
                | error e => rw [hrec] at hok; cases hok
                | ok c =>
                    rw [hrec] at hok
                    cases hok
                    have hc : TreeInv c := ih _ (by omega) _ _ method h1 m1
                      (TreeInv_NewRouteNode _ _ _) hrec
                    exact TreeInv.mk _ _ _ _ _ _ _ _ hnodup hpaths hmem hpa
                      (fun c' hc' => by cases hc'; exact hc)
          · rw [if_neg hw] at hok
            cases hsplit : splitAtFirst (getPathSegment (stripLeadingSlash path)).1 st with
            | some trip =>
                obtain ⟨pre, c, post⟩ := trip
                rw [hsplit] at hok
                dsimp only at hok
                cases hrec : addRouteWith cls c method
                    (getPathSegment (stripLeadingSlash path)).2 h1 m1 with
                | error e => rw [hrec] at hok; cases hok
                | ok c2 =>
                    rw [hrec] at hok
                    cases hok
                    obtain ⟨hl2, hcseg, hpre⟩ := splitAtFirst_some hsplit
                    have hcmem : c ∈ st := by rw [hl2]; simp
                    have hc2 : TreeInv c2 := ih _ (by omega) _ _ method h1 m1 (hmem c hcmem) hrec
                    have hc2path : c2.path = c.path := (addRouteWith_preserves_head cls hrec).1
                    refine TreeInv.mk _ _ _ _ _ _ _ _ hnodup ?_ ?_ hpa hwc
                    · have hmapeq : (pre ++ c2 :: post).map RouteNode.path =
                          (pre ++ c :: post).map RouteNode.path := by
                        simp [hc2path]
                      rw [hmapeq, ← hl2]
                      exact hpaths
                    · intro x hx
                      rcases List.mem_append.mp hx with hx | hx
                      · exact hmem x (by rw [hl2]; exact List.mem_append.mpr (Or.inl hx))
                      · rcases List.mem_cons.mp hx with hx | hx
                        · subst hx; exact hc2
                        · exact hmem x (by rw [hl2]; simp [hx])
            | none =>
                rw [hsplit] at hok
                dsimp only at hok
                cases hrec : addRouteWith cls
                    (NewRouteNode (getPathSegment (stripLeadingSlash path)).1 RouteType.Static [])
                    method (getPathSegment (stripLeadingSlash path)).2 h1 m1 with
                | error e => rw [hrec] at hok; cases hok
                | ok c2 =>
                    rw [hrec] at hok
                    cases hok
                    have hc2 : TreeInv c2 := ih _ (by omega) _ _ method h1 m1
                      (TreeInv_NewRouteNode _ _ _) hrec
                    have hc2path : c2.path = (getPathSegment (stripLeadingSlash path)).1 := by
                      rw [(addRouteWith_preserves_head cls hrec).1]; rfl
                    have hall := splitAtFirst_none hsplit
                    refine TreeInv.mk _ _ _ _ _ _ _ _ hnodup ?_ ?_ hpa hwc
                    · simp only [List.map_append, List.map_cons, List.map_nil]
                      refine List.Nodup.append hpaths (List.nodup_singleton _) ?_
                      rw [List.disjoint_left]
                      intro a ha hb
                      simp only [List.mem_singleton] at hb
                      obtain ⟨x, hx, hxp⟩ := List.mem_map.mp ha
                      exact hall x hx (by rw [hxp, hb, hc2path])
                    · intro x hx
                      rcases List.mem_append.mp hx with hx | hx
                      · exact hmem x hx
                      · rcases List.mem_cons.mp hx with hx | hx
                        · subst hx; exact hc2
                        · simp at hx

theorem applyRegsWith_inv (cls : Seg → RouteType × Seg) :
    ∀ (regs : List Reg) (n : RouteNode), TreeInv n → TreeInv (applyRegsWith cls n regs) := by
  intro regs
  induction regs with
  | nil => intro n h; exact h
  | cons r rest ih =>
      intro n h
      show TreeInv (applyRegsWith cls
        (match addRouteWith cls n r.method r.path r.handler r.mids with
         | .ok t => t
         | .error _ => n) rest)
      cases hadd : addRouteWith cls n r.method r.path r.handler r.mids with
      | ok t =>
          exact ih t (addRouteWith_inv_aux cls r.path.length r.path (le_refl _) n t
            r.method r.handler r.mids h hadd)
      | error e =>
          exact ih n h

/-- C7: every tree reachable from the fresh root by any sequence of
insertions (under either segment classifier; failed insertions leave the
tree unchanged) satisfies, at every node: the verb-to-handler map has at
most one entry per verb, and the static children have pairwise distinct
segment texts; at most one parameter child and at most one wildcard child
exist by the structure of the node (single optional fields, as in the Go
struct).  A second registration of a bound verb is rejected by
`addRouteWith` (see `c4_duplicate_registration_rejected`), never
overwritten, which is what keeps the verb map duplicate-free. -/
theorem c7_insertion_preserves_invariants (cls : Seg → RouteType × Seg) (regs : List Reg) :
    TreeInv (applyRegsWith cls rootNode regs) :=
  applyRegsWith_inv cls regs rootNode (TreeInv_NewRouteNode [] .None [])

/-! ### C8: the middleware chain is the root-first concatenation along the
descent path -/

/-- `c` is a child of `n`: one of the static children, the parameter child
or the wildcard child. -/
def IsChild (n c : RouteNode) : Prop :=
  c ∈ n.static ∨ n.param = some c ∨ n.wildcard = some c

/-- A root-first descent path in the tree: the list starts at the given
node and each element is followed by one of its children. -/
inductive Descent : RouteNode → List RouteNode → Prop where
  | single (n : RouteNode) : Descent n [n]
  | step (n c : RouteNode) (l : List RouteNode) :
      IsChild n c → Descent c l → Descent n (n :: l)

theorem find_middlewares_aux :
    ∀ (k : Nat) (path : Seg), path.length ≤ k →
    ∀ (n : RouteNode) (anc : List RouteNode) (method : String) (ps : Params)
      (hnd : Option Nat) (mws : List Nat) (ps2 : Params),
    find n anc method path ps = .ok (hnd, mws, ps2) →
    ∃ l, Descent n l ∧ mws = collectMiddlewares anc ++ collectMiddlewares l := by
  intro k
  induction k with
  | zero =>
      intro path hlen n anc method ps hnd mws ps2 hok
      have hpath : path = [] := List.length_eq_zero.mp (Nat.le_zero.mp hlen)
      subst hpath
      rw [find.eq_def, if_pos (Or.inl rfl)] at hok
      cases hl : lookupH n.handlers method with
      | none => rw [hl] at hok; cases hok
      | some handler =>
          rw [hl] at hok
          cases hok
          exact ⟨[n], Descent.single n, by rw [collectMiddlewares_append]⟩
  | succ k ih =>
      intro path hlen n anc method ps hnd mws ps2 hok
      by_cases hterm : path = [] ∨ path = ['/']
      · rw [find.eq_def, if_pos hterm] at hok
        cases hl : lookupH n.handlers method with
        | none => rw [hl] at hok; cases hok
        | some handler =>
            rw [hl] at hok
            cases hok
            exact ⟨[n], Descent.single n, by rw [collectMiddlewares_append]⟩
      · have hlt : (getPathSegment (stripLeadingSlash path)).2.length < path.length :=
          strip_split_length_lt path hterm
        rw [find.eq_def, if_neg hterm] at hok
        dsimp only at hok
        cases hfind : List.find?
            (fun child => child.path == (getPathSegment (stripLeadingSlash path)).1)
            n.static with
        | some child =>
            rw [hfind] at hok
            obtain ⟨l, hd, heq⟩ := ih _ (by omega) _ _ method _ hnd mws ps2 hok
            refine ⟨n :: l, Descent.step n child l
              (Or.inl (List.mem_of_find?_eq_some hfind)) hd, ?_⟩
            rw [heq, collectMiddlewares_append]
            simp [collectMiddlewares]
        | none =>
            rw [hfind] at hok
            cases hpa : n.param with
            | some pc =>
                rw [hpa] at hok
                dsimp only at hok
                cases hrec : find pc (anc ++ [n]) method
                    (getPathSegment (stripLeadingSlash path)).2
                    (insertP ps pc.paramName (getPathSegment (stripLeadingSlash path)).1) with
                | ok result =>
                    rw [hrec] at hok
                    obtain ⟨h1, m1, p1⟩ := result
                    cases hok
                    obtain ⟨l, hd, heq⟩ := ih _ (by omega) _ _ method _ hnd mws ps2 hrec
                    refine ⟨n :: l, Descent.step n pc l (Or.inr (Or.inl hpa)) hd, ?_⟩
                    rw [heq, collectMiddlewares_append]
                    simp [collectMiddlewares]
                | error e =>
                    rw [hrec] at hok
                    cases hwc : n.wildcard with
                    | some wc =>
                        rw [hwc] at hok
                        obtain ⟨l, hd, heq⟩ := ih _ (by simp) _ _ method _ hnd mws ps2 hok
                        refine ⟨n :: l, Descent.step n wc l (Or.inr (Or.inr hwc)) hd, ?_⟩
                        rw [heq, collectMiddlewares_append]
                        simp [collectMiddlewares]
                    | none => rw [hwc] at hok; cases hok
            | none =>
                rw [hpa] at hok
                cases hwc : n.wildcard with
                | some wc =>
                    rw [hwc] at hok
                    obtain ⟨l, hd, heq⟩ := ih _ (by simp) _ _ method _ hnd mws ps2 hok
                    refine ⟨n :: l, Descent.step n wc l (Or.inr (Or.inr hwc)) hd, ?_⟩
                    rw [heq, collectMiddlewares_append]
                    simp [collectMiddlewares]
                | none => rw [hwc] at hok; cases hok

/-- C8: every successful lookup's middleware chain is the concatenation, in
root-first order, of the local middleware sequences of the nodes along a
descent path from the root to the matched node — so middleware attached at
an ancestor always precedes middleware attached at a descendant, no matter
in which order sibling routes were registered. -/
theorem c8_middleware_chain_root_first (t : RouteNode) (method : String) (path : Seg)
    (r : FoundRoute) (hok : Find t method path = .ok r) :
    ∃ l, Descent t l ∧ r.Middlewares = (l.map RouteNode.middlewares).flatten := by
  unfold Find at hok
  cases hfind : find t [] method path [] with
  | error e => rw [hfind] at hok; cases hok
  | ok trip =>
      obtain ⟨hnd, mws, ps2⟩ := trip
      rw [hfind] at hok
      cases hok
      obtain ⟨l, hd, heq⟩ :=
        find_middlewares_aux path.length path (le_refl _) t [] method [] hnd mws ps2 hfind
      refine ⟨l, hd, ?_⟩
      show mws = (l.map RouteNode.middlewares).flatten
      rw [heq, ← collectMiddlewares_eq_flatten]
      simp [collectMiddlewares]

/-- A root with local middleware `[5]` and a `GET` handler bound at `/`. -/
def c8Node : RouteNode := .mk [] .None [] [("GET", some 1)] [5] [] none none

theorem c8_middleware_chain_root_first_witness :
    (Find c8Node "GET" ['/'] =
      .ok { Method := "GET", Path := ['/'], Handler := some 1,
            Middlewares := [5], PathParams := [] }) ∧
    ∃ l, Descent c8Node l ∧
      ({ Method := "GET", Path := ['/'], Handler := some 1,
         Middlewares := [5], PathParams := [] } : FoundRoute).Middlewares =
        (l.map RouteNode.middlewares).flatten :=
  ⟨by
    simp [Find, find, c8Node, lookupH, collectMiddlewares],
   c8_middleware_chain_root_first c8Node "GET" ['/'] _
     (by simp [Find, find, c8Node, lookupH, collectMiddlewares])⟩

/-! ### C3: the wildcard captures the whole remainder verbatim -/

/-- The wildcard node of `/files/*path` with a `GET` handler. -/
def c3Wc : RouteNode :=
  .mk "*path".toList .Wildcard "path".toList [("GET", some 1)] [] [] none none

def c3Files : RouteNode := .mk "files".toList .Static [] [] [] [] none (some c3Wc)

def c3Root : RouteNode := .mk [] .None [] [] [] [c3Files] none none

/-- `/files/*path` registered under `GET` by the engine insertion. -/
def c3Tree : RouteNode :=
  applyRegsWith getRouteTypeFromSegment rootNode
    [⟨"GET", "/files/*path".toList, some 1, []⟩]

theorem c3Tree_eq : c3Tree = c3Root := by
  simp [c3Tree, c3Root, c3Files, c3Wc, applyRegsWith, addRouteWith, rootNode, NewRouteNode,
    lookupH, getPathSegment, getRouteTypeFromSegment, isPathParam, isWildcard,
    stripLeadingSlash, splitAtFirst, notSlash, String.toList]

/-- C3: with `/files/*path` registered, looking up `GET /files/<s>` for any
non-empty suffix `s` that does not begin or end with a slash binds the whole
suffix — interior slashes preserved verbatim — to the wildcard's declared
name `path` as a single value, and resolution terminates at the wildcard
node's own verb bindings (the wildcard handler is returned; nothing is
matched past the wildcard node). -/
theorem c3_wildcard_captures_remainder_verbatim (s : Seg)
    (h1 : s ≠ []) (h3 : s.getLast? ≠ some '/') :
    Find c3Tree "GET" ("/files/".toList ++ s) =
      .ok { Method := "GET", Path := "/files/".toList ++ s, Handler := some 1,
            Middlewares := [], PathParams := [("path".toList, s)] } := by
  have hval : (getPathSegment s).1 ++
      (if (getPathSegment s).2 ≠ [] then (getPathSegment s).2 else []) = s := by
    by_cases h : (getPathSegment s).2 = []
    · have h4 := getPathSegment_append s h3
      rw [h] at h4
      simpa [h] using h4
    · simpa [h] using getPathSegment_append s h3
  have hne1 : ¬(("/files/".toList ++ s) = [] ∨ ("/files/".toList ++ s) = ['/']) := by
    simp [String.toList]
  have hne2 : ¬(('/' :: s) = [] ∨ ('/' :: s) = ['/']) := by
    simp [h1]
  have hsplit1 : getPathSegment (stripLeadingSlash ("/files/".toList ++ s)) =
      ("files".toList, '/' :: s) := by
    simp [stripLeadingSlash, getPathSegment, notSlash, String.toList, h1]
  have hstrip2 : stripLeadingSlash ('/' :: s) = s := by
    simp [stripLeadingSlash]
  have hins : insertP [] "path".toList s = [("path".toList, s)] := by
    simp [insertP]
  have hfind : find c3Root [] "GET" ("/files/".toList ++ s) [] =
      .ok (some 1, [], [("path".toList, s)]) := by
    rw [find.eq_def, if_neg hne1]
    dsimp only
    rw [hsplit1]
    dsimp only
    simp only [c3Root, c3Files, c3Wc, RouteNode.static_mk, RouteNode.param_mk,
      RouteNode.wildcard_mk, RouteNode.path_mk, RouteNode.paramName_mk]
    rw [List.find?_cons_of_pos _ (by simp)]
    dsimp only
    rw [find.eq_def, if_neg hne2]
    dsimp only
    rw [hstrip2]
    simp only [RouteNode.static_mk, RouteNode.param_mk, RouteNode.wildcard_mk,
      RouteNode.paramName_mk, List.find?_nil, c3Wc]
    rw [hval, hins]
    rw [find.eq_def, if_pos (Or.inl rfl)]
    simp [lookupH, collectMiddlewares]
  unfold Find
  rw [c3Tree_eq, hfind]

theorem c3_wildcard_captures_remainder_verbatim_witness :
    ("a/b/c.txt".toList ≠ []) ∧
    (Find c3Tree "GET" ("/files/".toList ++ "a/b/c.txt".toList) =
      .ok { Method := "GET", Path := "/files/".toList ++ "a/b/c.txt".toList,
            Handler := some 1, Middlewares := [],
            PathParams := [("path".toList, "a/b/c.txt".toList)] }) :=
  ⟨by decide,
    c3_wildcard_captures_remainder_verbatim "a/b/c.txt".toList (by decide) (by decide)⟩

/-! ### C9: group registration versus direct registration -/

/-- Two trees are similar when they agree everywhere except that handler
entries under the empty verb `""` (the marker `Group` binds at its
destination) may differ. -/
inductive Sim : RouteNode → RouteNode → Prop where
  | mk (p : Seg) (rt : RouteType) (pn : Seg)
      (hs1 hs2 : List (String × Option Nat)) (mw : List Nat)
      (st1 st2 : List RouteNode) (pa1 pa2 wc1 wc2 : Option RouteNode) :
      hs1.filter (fun kv => kv.1 ≠ "") = hs2.filter (fun kv => kv.1 ≠ "") →
      List.Forall₂ Sim st1 st2 →
      List.Forall₂ Sim pa1.toList pa2.toList →
      List.Forall₂ Sim wc1.toList wc2.toList →
      Sim (.mk p rt pn hs1 mw st1 pa1 wc1) (.mk p rt pn hs2 mw st2 pa2 wc2)

theorem RouteNode.sizeOf_pos (n : RouteNode) : 0 < sizeOf n := by
  obtain ⟨p, rt, pn, hs, mw, st, pa, wc⟩ := n
  simp_arith

theorem Sim.rfl : ∀ (n : RouteNode), Sim n n := by
  have H : ∀ (k : Nat) (n : RouteNode), sizeOf n ≤ k → Sim n n := by
    intro k
    induction k with
    | zero =>
        intro n h
        exact absurd (Nat.lt_of_lt_of_le (RouteNode.sizeOf_pos n) h) (by simp)
    | succ k ih =>
        intro n hle
        obtain ⟨p, rt, pn, hs, mw, st, pa, wc⟩ := n
        have hsz := RouteNode.mk.sizeOf_spec p rt pn hs mw st pa wc
        refine Sim.mk _ _ _ _ _ _ _ _ _ _ _ _ (Eq.refl _) ?_ ?_ ?_
        · rw [List.forall₂_same]
          intro x hx
          have h1 := List.sizeOf_lt_of_mem hx
          exact ih x (by omega)
        · cases pa with
          | none => exact List.Forall₂.nil
          | some a =>
              refine List.Forall₂.cons ?_ List.Forall₂.nil
              have h1 : sizeOf a < sizeOf (some a) := by simp_arith
              have h2 : sizeOf (some a) ≤ sizeOf (RouteNode.mk p rt pn hs mw st (some a) wc) := by
                simp_arith
              exact ih a (by omega)
        · cases wc with
          | none => exact List.Forall₂.nil
          | some a =>
              refine List.Forall₂.cons ?_ List.Forall₂.nil
              have h1 : sizeOf a < sizeOf (some a) := by simp_arith
              have h2 : sizeOf (some a) ≤ sizeOf (RouteNode.mk p rt pn hs mw st pa (some a)) := by
                simp_arith
              exact ih a (by omega)
  intro n
  exact H (sizeOf n) n (le_refl _)

theorem Sim.path_eq {a b : RouteNode} (h : Sim a b) : a.path = b.path := by
  cases h; simp

theorem Sim.paramName_eq {a b : RouteNode} (h : Sim a b) : a.paramName = b.paramName := by
  cases h; simp

theorem Sim.middlewares_eq {a b : RouteNode} (h : Sim a b) :
    a.middlewares = b.middlewares := by
  cases h; simp

theorem Sim.handlers_filter_eq {a b : RouteNode} (h : Sim a b) :
    a.handlers.filter (fun kv => kv.1 ≠ "") = b.handlers.filter (fun kv => kv.1 ≠ "") := by
  cases h with
  | mk _ _ _ _ _ _ _ _ _ _ _ _ hfil _ _ _ => simpa using hfil

theorem Sim.static_rel {a b : RouteNode} (h : Sim a b) :
    List.Forall₂ Sim a.static b.static := by
  cases h with
  | mk _ _ _ _ _ _ _ _ _ _ _ _ _ hst _ _ => simpa using hst

theorem Sim.param_rel {a b : RouteNode} (h : Sim a b) :
    List.Forall₂ Sim a.param.toList b.param.toList := by
  cases h with
  | mk _ _ _ _ _ _ _ _ _ _ _ _ _ _ hpa _ => simpa using hpa

theorem Sim.wildcard_rel {a b : RouteNode} (h : Sim a b) :
    List.Forall₂ Sim a.wildcard.toList b.wildcard.toList := by
  cases h with
  | mk _ _ _ _ _ _ _ _ _ _ _ _ _ _ _ hwc => simpa using hwc

theorem lookupH_filterBlank (m : String) (hm : m ≠ "") :
    ∀ hs : List (String × Option Nat),
    lookupH hs m = lookupH (hs.filter (fun kv => kv.1 ≠ "")) m := by
  intro hs
  induction hs with
  | nil => rfl
  | cons kv rest ih =>
      by_cases hk : kv.1 == m
      · have hkv : kv.1 = m := by simpa using hk
        have hne : (kv.1 ≠ "") := by rw [hkv]; exact hm
        unfold lookupH
        rw [List.filter_cons_of_pos (by simpa using hne),
          List.find?_cons_of_pos (p := fun kv : String × Option Nat => kv.1 == m) _ hk,
          List.find?_cons_of_pos (p := fun kv : String × Option Nat => kv.1 == m) _ hk]
      · by_cases hb : kv.1 = ""
        · unfold lookupH
          rw [List.filter_cons_of_neg (by simpa using hb),
            List.find?_cons_of_neg (p := fun kv : String × Option Nat => kv.1 == m) _ hk]
          exact ih
        · unfold lookupH
          rw [List.filter_cons_of_pos (by simpa using hb),
            List.find?_cons_of_neg (p := fun kv : String × Option Nat => kv.1 == m) _ hk,
            List.find?_cons_of_neg (p := fun kv : String × Option Nat => kv.1 == m) _ hk]
          exact ih

theorem lookupH_eq_of_filter_eq {hs1 hs2 : List (String × Option Nat)}
    (hfil : hs1.filter (fun kv => kv.1 ≠ "") = hs2.filter (fun kv => kv.1 ≠ ""))
    {m : String} (hm : m ≠ "") : lookupH hs1 m = lookupH hs2 m := by
  rw [lookupH_filterBlank m hm hs1, lookupH_filterBlank m hm hs2, hfil]

theorem optionSim_cases {o1 o2 : Option RouteNode}
    (h : List.Forall₂ Sim o1.toList o2.toList) :
    (o1 = none ∧ o2 = none) ∨ ∃ a b, o1 = some a ∧ o2 = some b ∧ Sim a b := by
  cases o1 with
  | none =>
      cases o2 with
      | none => exact Or.inl ⟨rfl, rfl⟩
      | some b => simp [Option.toList] at h
  | some a =>
      cases o2 with
      | none => simp [Option.toList] at h
      | some b =>
          simp only [Option.toList_some] at h
          cases h with
          | cons hab htail => exact Or.inr ⟨a, b, rfl, rfl, hab⟩

theorem find?_sim {st1 st2 : List RouteNode} (h : List.Forall₂ Sim st1 st2) (seg : Seg) :
    (st1.find? (fun c => c.path == seg) = none ∧
      st2.find? (fun c => c.path == seg) = none) ∨
    ∃ c1 c2, st1.find? (fun c => c.path == seg) = some c1 ∧
      st2.find? (fun c => c.path == seg) = some c2 ∧ Sim c1 c2 := by
  induction h with
  | nil => exact Or.inl ⟨rfl, rfl⟩
  | cons hab htail ih =>
      rename_i a b l1 l2
      by_cases hpa : a.path == seg
      · have hpb : (b.path == seg) = true := by rw [← Sim.path_eq hab]; exact hpa
        exact Or.inr ⟨a, b, List.find?_cons_of_pos (p := fun c : RouteNode => c.path == seg) _ hpa,
          List.find?_cons_of_pos (p := fun c : RouteNode => c.path == seg) _ hpb, hab⟩
      · have hpb : ¬(b.path == seg) = true := by rw [← Sim.path_eq hab]; exact hpa
        rw [List.find?_cons_of_neg (p := fun c : RouteNode => c.path == seg) _ hpa,
          List.find?_cons_of_neg (p := fun c : RouteNode => c.path == seg) _ hpb]
        exact ih

theorem splitAtFirst_sim {st1 st2 : List RouteNode} (h : List.Forall₂ Sim st1 st2)
    (seg : Seg) :
    (splitAtFirst seg st1 = none ∧ splitAtFirst seg st2 = none) ∨
    ∃ pre1 c1 post1 pre2 c2 post2,
      splitAtFirst seg st1 = some (pre1, c1, post1) ∧
      splitAtFirst seg st2 = some (pre2, c2, post2) ∧
      List.Forall₂ Sim pre1 pre2 ∧ Sim c1 c2 ∧ List.Forall₂ Sim post1 post2 := by
  induction h with
  | nil => exact Or.inl ⟨rfl, rfl⟩
  | cons hab htail ih =>
      rename_i a b l1 l2
      by_cases hpa : a.path == seg
      · have hpb : (b.path == seg) = true := by rw [← Sim.path_eq hab]; exact hpa
        refine Or.inr ⟨[], a, l1, [], b, l2, ?_, ?_, List.Forall₂.nil, hab, htail⟩
        · unfold splitAtFirst; rw [if_pos hpa]
        · unfold splitAtFirst; rw [if_pos hpb]
      · have hpb : ¬(b.path == seg) = true := by rw [← Sim.path_eq hab]; exact hpa
        rcases ih with ⟨hn1, hn2⟩ | ⟨pre1, c1, post1, pre2, c2, post2, hs1, hs2, hf1, hc, hf2⟩
        · refine Or.inl ⟨?_, ?_⟩
          · unfold splitAtFirst; rw [if_neg hpa, hn1]
          · unfold splitAtFirst; rw [if_neg hpb, hn2]
        · refine Or.inr ⟨a :: pre1, c1, post1, b :: pre2, c2, post2, ?_, ?_,
            List.Forall₂.cons hab hf1, hc, hf2⟩
          · unfold splitAtFirst; rw [if_neg hpa, hs1]
          · unfold splitAtFirst; rw [if_neg hpb, hs2]

theorem collectMiddlewares_eq_of_map_eq {anc1 anc2 : List RouteNode}
    (h : anc1.map RouteNode.middlewares = anc2.map RouteNode.middlewares) :
    collectMiddlewares anc1 = collectMiddlewares anc2 := by
  rw [collectMiddlewares_eq_flatten, collectMiddlewares_eq_flatten, h]

theorem find_respects_sim_terminal {q : Seg} (hterm : q = [] ∨ q = ['/'])
    {n1 n2 : RouteNode} {anc1 anc2 : List RouteNode} {v : String} {ps : Params}
    (hv : v ≠ "") (hsim : Sim n1 n2)
    (hanc : anc1.map RouteNode.middlewares = anc2.map RouteNode.middlewares) :
    find n1 anc1 v q ps = find n2 anc2 v q ps := by
  rw [find.eq_def, if_pos hterm]
  conv_rhs => rw [find.eq_def, if_pos hterm]
  have hl : lookupH n1.handlers v = lookupH n2.handlers v :=
    lookupH_eq_of_filter_eq (Sim.handlers_filter_eq hsim) hv
  rw [hl]
  cases hx : lookupH n2.handlers v with
  | none => rfl
  | some handler =>
      have hmids : collectMiddlewares (anc1 ++ [n1]) = collectMiddlewares (anc2 ++ [n2]) :=
        collectMiddlewares_eq_of_map_eq
          (by simp [hanc, Sim.middlewares_eq hsim])
      rw [hmids]

theorem find_respects_sim :
    ∀ (k : Nat) (q : Seg), q.length ≤ k →
    ∀ (n1 n2 : RouteNode) (anc1 anc2 : List RouteNode) (v : String) (ps : Params),
    v ≠ "" → Sim n1 n2 →
    anc1.map RouteNode.middlewares = anc2.map RouteNode.middlewares →
    find n1 anc1 v q ps = find n2 anc2 v q ps := by
  intro k
  induction k with
  | zero =>
      intro q hlen n1 n2 anc1 anc2 v ps hv hsim hanc
      have hq : q = [] := List.length_eq_zero.mp (Nat.le_zero.mp hlen)
      exact find_respects_sim_terminal (Or.inl hq) hv hsim hanc
  | succ k ih =>
      intro q hlen n1 n2 anc1 anc2 v ps hv hsim hanc
      by_cases hterm : q = [] ∨ q = ['/']
      · exact find_respects_sim_terminal hterm hv hsim hanc
      · have hlt : (getPathSegment (stripLeadingSlash q)).2.length < q.length :=
          strip_split_length_lt q hterm
        have hancx : (anc1 ++ [n1]).map RouteNode.middlewares =
            (anc2 ++ [n2]).map RouteNode.middlewares := by
          simp [hanc, Sim.middlewares_eq hsim]
        rw [find.eq_def, if_neg hterm]
        conv_rhs => rw [find.eq_def, if_neg hterm]
        dsimp only
        rcases find?_sim (Sim.static_rel hsim) (getPathSegment (stripLeadingSlash q)).1 with
          ⟨hf1, hf2⟩ | ⟨c1, c2, hf1, hf2, hc⟩
        · rw [hf1, hf2]
          rcases optionSim_cases (Sim.param_rel hsim) with
            ⟨hp1, hp2⟩ | ⟨pc1, pc2, hp1, hp2, hpc⟩
          · rw [hp1, hp2]
            rcases optionSim_cases (Sim.wildcard_rel hsim) with
              ⟨hw1, hw2⟩ | ⟨wc1, wc2, hw1, hw2, hwc⟩
            · rw [hw1, hw2]
            · rw [hw1, hw2]
              dsimp only
              rw [Sim.paramName_eq hwc]
              exact ih _ (by simp) _ _ _ _ v _ hv hwc hancx
          · rw [hp1, hp2]
            dsimp only
            rw [Sim.paramName_eq hpc]
            have hrec : find pc1 (anc1 ++ [n1]) v (getPathSegment (stripLeadingSlash q)).2
                (insertP ps pc2.paramName (getPathSegment (stripLeadingSlash q)).1) =
              find pc2 (anc2 ++ [n2]) v (getPathSegment (stripLeadingSlash q)).2
                (insertP ps pc2.paramName (getPathSegment (stripLeadingSlash q)).1) :=
              ih _ (by omega) _ _ _ _ v _ hv hpc hancx
            rw [hrec]
            cases hx : find pc2 (anc2 ++ [n2]) v (getPathSegment (stripLeadingSlash q)).2
                (insertP ps pc2.paramName (getPathSegment (stripLeadingSlash q)).1) with
            | ok result => rfl
            | error e =>
                dsimp only
                rcases optionSim_cases (Sim.wildcard_rel hsim) with
                  ⟨hw1, hw2⟩ | ⟨wc1, wc2, hw1, hw2, hwc⟩
                · rw [hw1, hw2]
                · rw [hw1, hw2]
                  dsimp only
                  rw [Sim.paramName_eq hwc]
                  exact ih _ (by simp) _ _ _ _ v _ hv hwc hancx
        · rw [hf1, hf2]
          exact ih _ (by omega) _ _ _ _ v _ hv hc hancx

theorem forall₂_append_sim {l1 l2 u1 u2 : List RouteNode}
    (h : List.Forall₂ Sim l1 l2) (h2 : List.Forall₂ Sim u1 u2) :
    List.Forall₂ Sim (l1 ++ u1) (l2 ++ u2) := by
  induction h with
  | nil => exact h2
  | cons hab htail ih => exact List.Forall₂.cons hab ih

theorem addRoute_respects_sim_terminal {q : Seg} (hterm : q = [] ∨ q = ['/'])
    {n1 n2 t1 t2 : RouteNode} {v : String} {hd : Option Nat} {m : List Nat}
    (hv : v ≠ "") (hsim : Sim n1 n2)
    (h1 : addRoute n1 v q hd m = .ok t1) (h2 : addRoute n2 v q hd m = .ok t2) :
    Sim t1 t2 := by
  cases hsim with
  | mk p rt pn hs1 hs2 mw st1 st2 pa1 pa2 wc1 wc2 hfil hst hpa hwc =>
      unfold addRoute at h1 h2
      rw [addRouteWith.eq_def, if_pos hterm] at h1
      rw [addRouteWith.eq_def, if_pos hterm] at h2
      simp only [RouteNode.handlers_mk, RouteNode.middlewares_mk, RouteNode.static_mk,
        RouteNode.param_mk, RouteNode.wildcard_mk, RouteNode.path_mk,
        RouteNode.routeType_mk, RouteNode.paramName_mk] at h1 h2
      have hl : lookupH hs1 v = lookupH hs2 v := lookupH_eq_of_filter_eq hfil hv
      cases hx1 : lookupH hs1 v with
      | some x => rw [hx1] at h1; cases h1
      | none =>
          rw [hx1] at h1
          rw [hl] at hx1
          rw [hx1] at h2
          cases h1
          cases h2
          refine Sim.mk _ _ _ _ _ _ _ _ _ _ _ _ ?_ hst hpa hwc
          rw [List.filter_append, List.filter_append, hfil,
            List.filter_cons_of_pos (by simpa using hv)]

theorem addRoute_respects_sim :
    ∀ (k : Nat) (q : Seg), q.length ≤ k →
    ∀ (n1 n2 t1 t2 : RouteNode) (v : String) (hd : Option Nat) (m : List Nat),
    v ≠ "" → Sim n1 n2 →
    addRoute n1 v q hd m = .ok t1 → addRoute n2 v q hd m = .ok t2 → Sim t1 t2 := by
  intro k
  induction k with
  | zero =>
      intro q hlen n1 n2 t1 t2 v hd m hv hsim h1 h2
      have hq : q = [] := List.length_eq_zero.mp (Nat.le_zero.mp hlen)
      exact addRoute_respects_sim_terminal (Or.inl hq) hv hsim h1 h2
  | succ k ih =>
      intro q hlen n1 n2 t1 t2 v hd m hv hsim h1 h2
      by_cases hterm : q = [] ∨ q = ['/']
      · exact addRoute_respects_sim_terminal hterm hv hsim h1 h2
      · have hlt : (getPathSegment (stripLeadingSlash q)).2.length < q.length :=
          strip_split_length_lt q hterm
        cases hsim with
        | mk p rt pn hs1 hs2 mw st1 st2 pa1 pa2 wc1 wc2 hfil hst hpa hwc =>
        unfold addRoute at h1 h2 ih
        rw [addRouteWith.eq_def, if_neg hterm] at h1
        rw [addRouteWith.eq_def, if_neg hterm] at h2
        dsimp only at h1 h2
        simp only [RouteNode.handlers_mk, RouteNode.middlewares_mk, RouteNode.static_mk,
          RouteNode.param_mk, RouteNode.wildcard_mk, RouteNode.path_mk,
          RouteNode.routeType_mk, RouteNode.paramName_mk] at h1 h2
        by_cases hcp : (getRouteTypeFromSegment (getPathSegment (stripLeadingSlash q)).1).1 =
            RouteType.Param
        · rw [if_pos hcp] at h1 h2
          rcases optionSim_cases hpa with ⟨hp1, hp2⟩ | ⟨a, b, hp1, hp2, hab⟩
          · rw [hp1] at h1
            rw [hp2] at h2
            simp only [Option.getD_none] at h1 h2
            cases hr1 : addRoute (NewRouteNode (getPathSegment (stripLeadingSlash q)).1
                (getRouteTypeFromSegment (getPathSegment (stripLeadingSlash q)).1).1
                (getRouteTypeFromSegment (getPathSegment (stripLeadingSlash q)).1).2) v
                (getPathSegment (stripLeadingSlash q)).2 hd m with
            | error e => rw [show addRouteWith getRouteTypeFromSegment _ v _ hd m = _ from hr1] at h1; cases h1
            | ok c1 =>
                rw [show addRouteWith getRouteTypeFromSegment _ v _ hd m = _ from hr1] at h1 h2
                cases h1
                cases h2
                refine Sim.mk _ _ _ _ _ _ _ _ _ _ _ _ hfil hst ?_ hwc
                exact List.Forall₂.cons (ih _ (by omega) _ _ _ _ v hd m hv (Sim.rfl _) hr1 hr1)
                  List.Forall₂.nil
          · rw [hp1] at h1
            rw [hp2] at h2
            simp only [Option.getD_some] at h1 h2
            cases hr1 : addRoute a v (getPathSegment (stripLeadingSlash q)).2 hd m with
            | error e => rw [show addRouteWith getRouteTypeFromSegment a v _ hd m = _ from hr1] at h1; cases h1
            | ok c1 =>
                rw [show addRouteWith getRouteTypeFromSegment a v _ hd m = _ from hr1] at h1
                cases h1
                cases hr2 : addRoute b v (getPathSegment (stripLeadingSlash q)).2 hd m with
                | error e => rw [show addRouteWith getRouteTypeFromSegment b v _ hd m = _ from hr2] at h2; cases h2
                | ok c2 =>
                    rw [show addRouteWith getRouteTypeFromSegment b v _ hd m = _ from hr2] at h2
                    cases h2
                    refine Sim.mk _ _ _ _ _ _ _ _ _ _ _ _ hfil hst ?_ hwc
                    exact List.Forall₂.cons (ih _ (by omega) _ _ _ _ v hd m hv hab hr1 hr2)
                      List.Forall₂.nil
        · rw [if_neg hcp] at h1 h2
          by_cases hcw : (getRouteTypeFromSegment (getPathSegment (stripLeadingSlash q)).1).1 =
              RouteType.Wildcard
          · rw [if_pos hcw] at h1 h2
            rcases optionSim_cases hwc with ⟨hw1, hw2⟩ | ⟨a, b, hw1, hw2, hab⟩
            · rw [hw1] at h1
              rw [hw2] at h2
              simp only [Option.getD_none] at h1 h2
              cases hr1 : addRoute (NewRouteNode (getPathSegment (stripLeadingSlash q)).1
                  (getRouteTypeFromSegment (getPathSegment (stripLeadingSlash q)).1).1
                  (getRouteTypeFromSegment (getPathSegment (stripLeadingSlash q)).1).2) v
                  (getPathSegment (stripLeadingSlash q)).2 hd m with
              | error e => rw [show addRouteWith getRouteTypeFromSegment _ v _ hd m = _ from hr1] at h1; cases h1
              | ok c1 =>
                  rw [show addRouteWith getRouteTypeFromSegment _ v _ hd m = _ from hr1] at h1 h2
                  cases h1
                  cases h2
                  refine Sim.mk _ _ _ _ _ _ _ _ _ _ _ _ hfil hst hpa ?_
                  exact List.Forall₂.cons (ih _ (by omega) _ _ _ _ v hd m hv (Sim.rfl _) hr1 hr1)
                    List.Forall₂.nil
            · rw [hw1] at h1
              rw [hw2] at h2
              simp only [Option.getD_some] at h1 h2
              cases hr1 : addRoute a v (getPathSegment (stripLeadingSlash q)).2 hd m with
              | error e => rw [show addRouteWith getRouteTypeFromSegment a v _ hd m = _ from hr1] at h1; cases h1
              | ok c1 =>
                  rw [show addRouteWith getRouteTypeFromSegment a v _ hd m = _ from hr1] at h1
                  cases h1
                  cases hr2 : addRoute b v (getPathSegment (stripLeadingSlash q)).2 hd m with
                  | error e => rw [show addRouteWith getRouteTypeFromSegment b v _ hd m = _ from hr2] at h2; cases h2
                  | ok c2 =>
                      rw [show addRouteWith getRouteTypeFromSegment b v _ hd m = _ from hr2] at h2
                      cases h2
                      refine Sim.mk _ _ _ _ _ _ _ _ _ _ _ _ hfil hst hpa ?_
                      exact List.Forall₂.cons (ih _ (by omega) _ _ _ _ v hd m hv hab hr1 hr2)
                        List.Forall₂.nil
          · rw [if_neg hcw] at h1 h2
            rcases splitAtFirst_sim hst (getPathSegment (stripLeadingSlash q)).1 with
              ⟨hs1, hs2⟩ | ⟨pre1, c1, post1, pre2, c2, post2, hsp1, hsp2, hfpre, hcc, hfpost⟩
            · rw [hs1] at h1
              rw [hs2] at h2
              dsimp only at h1 h2
              cases hr1 : addRoute (NewRouteNode (getPathSegment (stripLeadingSlash q)).1
                  RouteType.Static []) v (getPathSegment (stripLeadingSlash q)).2 hd m with
              | error e => rw [show addRouteWith getRouteTypeFromSegment _ v _ hd m = _ from hr1] at h1; cases h1
              | ok c1 =>
                  rw [show addRouteWith getRouteTypeFromSegment _ v _ hd m = _ from hr1] at h1 h2
                  cases h1
                  cases h2
                  refine Sim.mk _ _ _ _ _ _ _ _ _ _ _ _ hfil ?_ hpa hwc
                  exact forall₂_append_sim hst
                    (List.Forall₂.cons (ih _ (by omega) _ _ _ _ v hd m hv (Sim.rfl _) hr1 hr1)
                      List.Forall₂.nil)
            · rw [hsp1] at h1
              rw [hsp2] at h2
              dsimp only at h1 h2
              cases hr1 : addRoute c1 v (getPathSegment (stripLeadingSlash q)).2 hd m with
              | error e => rw [show addRouteWith getRouteTypeFromSegment c1 v _ hd m = _ from hr1] at h1; cases h1
              | ok d1 =>
                  rw [show addRouteWith getRouteTypeFromSegment c1 v _ hd m = _ from hr1] at h1
                  cases h1
                  cases hr2 : addRoute c2 v (getPathSegment (stripLeadingSlash q)).2 hd m with
                  | error e => rw [show addRouteWith getRouteTypeFromSegment c2 v _ hd m = _ from hr2] at h2; cases h2
                  | ok d2 =>
                      rw [show addRouteWith getRouteTypeFromSegment c2 v _ hd m = _ from hr2] at h2
                      cases h2
                      refine Sim.mk _ _ _ _ _ _ _ _ _ _ _ _ hfil ?_ hpa hwc
                      exact forall₂_append_sim hfpre
                        (List.Forall₂.cons (ih _ (by omega) _ _ _ _ v hd m hv hcc hr1 hr2)
                          hfpost)

theorem strip_append (pfx p : Seg) (h : pfx ≠ []) :
    stripLeadingSlash (pfx ++ p) = stripLeadingSlash pfx ++ p := by
  cases pfx with
  | nil => exact absurd rfl h
  | cons a l =>
      unfold stripLeadingSlash
      by_cases ha : a = '/'
      · subst ha
        simp
      · simp [ha]

theorem strip_ne (pfx : Seg) (h1 : pfx ≠ []) (h2 : pfx ≠ ['/']) :
    stripLeadingSlash pfx ≠ [] := by
  cases pfx with
  | nil => exact absurd rfl h1
  | cons a l =>
      by_cases ha : a = '/'
      · subst ha
        have hst : stripLeadingSlash ('/' :: l) = l := by simp [stripLeadingSlash]
        rw [hst]
        intro hl
        exact h2 (by rw [hl])
      · have hst : stripLeadingSlash (a :: l) = a :: l := by simp [stripLeadingSlash, ha]
        rw [hst]
        simp

theorem strip_getLast (pfx : Seg) (h1 : pfx ≠ []) (h2 : pfx ≠ ['/'])
    (h3 : pfx.getLast? ≠ some '/') :
    (stripLeadingSlash pfx).getLast? ≠ some '/' := by
  cases pfx with
  | nil => exact absurd rfl h1
  | cons a l =>
      by_cases ha : a = '/'
      · subst ha
        have hst : stripLeadingSlash ('/' :: l) = l := by simp [stripLeadingSlash]
        rw [hst]
        cases l with
        | nil => exact absurd rfl h2
        | cons b l2 =>
            intro hlast
            exact h3 (by rw [List.getLast?_cons_cons]; exact hlast)
      · have hst : stripLeadingSlash (a :: l) = a :: l := by simp [stripLeadingSlash, ha]
        rw [hst]
        exact h3

theorem rem_getLast (s : Seg) (hlast : s.getLast? ≠ some '/')
    (hrem : (getPathSegment s).2 ≠ []) :
    (getPathSegment s).2.getLast? ≠ some '/' := by
  have hsplit := getPathSegment_append s hlast
  intro hcon
  apply hlast
  rw [← hsplit]
  rw [List.getLast?_append_of_ne_nil _ hrem]
  exact hcon

theorem addRoute_nil_slash (x : RouteNode) (v : String) (hd : Option Nat) (m : List Nat) :
    addRoute x v ['/'] hd m = addRoute x v [] hd m := by
  unfold addRoute
  rw [addRouteWith.eq_def, if_pos (Or.inr rfl)]
  conv_rhs => rw [addRouteWith.eq_def, if_pos (Or.inl rfl)]

theorem getPathSegment_append_slash (s p2 : Seg)
    (hlast : s.getLast? ≠ some '/') :
    (getPathSegment (s ++ '/' :: p2)).1 = (getPathSegment s).1 ∧
    (getPathSegment (s ++ '/' :: p2)).2 =
      (if (getPathSegment s).2 = [] then (if p2 = [] then [] else '/' :: p2)
       else (getPathSegment s).2 ++ '/' :: p2) := by
  have hsplit := List.takeWhile_append_dropWhile (p := notSlash) (l := s)
  have hhead := List.head?_dropWhile_not notSlash s
  cases hrest : s.dropWhile notSlash with
  | nil =>
      have hall : ∀ a ∈ s, notSlash a := by
        intro a ha
        have := List.dropWhile_eq_nil_iff.mp hrest a ha
        simpa using this
      have htake : s.takeWhile notSlash = s := by
        rw [hrest] at hsplit
        simpa using hsplit
      have hgs : getPathSegment s = (s, []) := by
        unfold getPathSegment
        rw [hrest, htake]
      have hgps : getPathSegment (s ++ '/' :: p2) =
          (s, if p2 = [] then [] else '/' :: p2) := by
        unfold getPathSegment
        rw [List.dropWhile_append_of_pos hall, List.takeWhile_append_of_pos hall]
        rw [show List.dropWhile notSlash ('/' :: p2) = '/' :: p2 from by
          rw [List.dropWhile_cons]
          simp [notSlash]]
        rw [show List.takeWhile notSlash ('/' :: p2) = [] from by
          rw [List.takeWhile_cons]
          simp [notSlash]]
        simp [htake]
      rw [hgps, hgs]
      simp
  | cons d tail =>
      rw [hrest] at hsplit hhead
      have hd : d = '/' := eq_slash_of_notSlash (by simpa using hhead)
      have htail : tail ≠ [] := by
        intro h
        apply hlast
        subst h
        rw [← hsplit, hd]
        simp [List.getLast?_append]
      have htlen : ¬((s.takeWhile notSlash).length = s.length) := by
        intro h
        have h2 : s.length = (s.takeWhile notSlash).length + (d :: tail).length := by
          conv_lhs => rw [← hsplit]
          simp
        simp [h] at h2
      have hgs : getPathSegment s = (s.takeWhile notSlash, '/' :: tail) := by
        unfold getPathSegment
        rw [hrest]
        simp [htail, hd]
      have hgps : getPathSegment (s ++ '/' :: p2) =
          (s.takeWhile notSlash, '/' :: (tail ++ '/' :: p2)) := by
        unfold getPathSegment
        rw [List.takeWhile_append, if_neg htlen]
        rw [List.dropWhile_append]
        rw [hrest]
        have hne2 : tail ++ '/' :: p2 ≠ [] := by simp
        simp [hne2, hd]
      rw [hgps, hgs]
      simp [htail]

theorem addRouteWith_if_path (x : RouteNode) (v : String) (hd2 : Option Nat)
    (m : List Nat) (p1 : Seg) :
    addRouteWith getRouteTypeFromSegment x v (if p1 = [] then [] else '/' :: p1) hd2 m =
      addRouteWith getRouteTypeFromSegment x v ('/' :: p1) hd2 m := by
  by_cases hp1 : p1 = []
  · subst hp1
    rw [if_pos rfl]
    exact (addRoute_nil_slash x v hd2 m).symm
  · rw [if_neg hp1]

theorem groupRegister_sim_terminal {p : Seg}
    {n tg td : RouteNode} {v : String} {hd2 : Option Nat} {m : List Nat}
    (hv : v ≠ "")
    (hg : groupRegister n [] v p hd2 m = .ok tg)
    (hdd : addRoute n v p hd2 m = .ok td) :
    Sim tg td := by
  rw [groupRegister.eq_def, if_pos (Or.inl rfl)] at hg
  cases hl : lookupH n.handlers "" with
  | some x => rw [hl] at hg; cases hg
  | none =>
      rw [hl] at hg
      obtain ⟨p0, rt, pn, hs, mw, st, pa, wc⟩ := n
      simp only [RouteNode.path_mk, RouteNode.routeType_mk, RouteNode.paramName_mk,
        RouteNode.handlers_mk, RouteNode.middlewares_mk, RouteNode.static_mk,
        RouteNode.param_mk, RouteNode.wildcard_mk] at hg
      have hsim : Sim (RouteNode.mk p0 rt pn (hs ++ [("", none)]) mw st pa wc)
          (RouteNode.mk p0 rt pn hs mw st pa wc) := by
        refine Sim.mk _ _ _ _ _ _ _ _ _ _ _ _ ?_ ?_ ?_ ?_
        · rw [List.filter_append]
          simp
        · rw [List.forall₂_same]
          intro x _
          exact Sim.rfl x
        · rw [List.forall₂_same]
          intro x _
          exact Sim.rfl x
        · rw [List.forall₂_same]
          intro x _
          exact Sim.rfl x
      exact addRoute_respects_sim p.length p (le_refl _) _ _ _ _ v hd2 m hv hsim hg hdd

theorem groupRegister_sim :
    ∀ (k : Nat) (pfx : Seg), pfx.length ≤ k →
    ∀ (n tg td : RouteNode) (p : Seg) (v : String) (hd2 : Option Nat) (m : List Nat),
    pfx.getLast? ≠ some '/' → p.head? = some '/' → v ≠ "" →
    groupRegister n pfx v p hd2 m = .ok tg →
    addRoute n v (pfx ++ p) hd2 m = .ok td →
    Sim tg td := by
  intro k
  induction k with
  | zero =>
      intro pfx hlen n tg td p v hd2 m hpl hph hv hg hdd
      have hpfx : pfx = [] := List.length_eq_zero.mp (Nat.le_zero.mp hlen)
      subst hpfx
      rw [List.nil_append] at hdd
      exact groupRegister_sim_terminal hv hg hdd
  | succ k ih =>
      intro pfx hlen n tg td p v hd2 m hpl hph hv hg hdd
      by_cases hpfx : pfx = []
      · subst hpfx
        rw [List.nil_append] at hdd
        exact groupRegister_sim_terminal hv hg hdd
      · have hpfx2 : pfx ≠ ['/'] := by
          intro h
          rw [h] at hpl
          simp at hpl
        have hterm : ¬(pfx = [] ∨ pfx = ['/']) := by
          simp [hpfx, hpfx2]
        obtain ⟨p1, hp⟩ : ∃ p1, p = '/' :: p1 := by
          cases p with
          | nil => simp at hph
          | cons a p1 =>
              have ha : a = '/' := by simpa using hph
              exact ⟨p1, by rw [ha]⟩
        subst hp
        have hplen : 0 < pfx.length := List.length_pos.mpr hpfx
        have hterm2 : ¬(pfx ++ '/' :: p1 = [] ∨ pfx ++ '/' :: p1 = ['/']) := by
          push_neg
          constructor
          · simp [hpfx]
          · intro hcon
            have hlen2 := congrArg List.length hcon
            simp at hlen2
            omega
        have hslast : (stripLeadingSlash pfx).getLast? ≠ some '/' :=
          strip_getLast pfx hpfx hpfx2 hpl
        have hstripapp : stripLeadingSlash (pfx ++ '/' :: p1) =
            stripLeadingSlash pfx ++ '/' :: p1 := strip_append pfx _ hpfx
        obtain ⟨hfst, hsnd⟩ := getPathSegment_append_slash (stripLeadingSlash pfx) p1
          hslast
        have hlt : (getPathSegment (stripLeadingSlash pfx)).2.length < pfx.length :=
          strip_split_length_lt pfx hterm
        have hremlast : (getPathSegment (stripLeadingSlash pfx)).2.getLast? ≠ some '/' := by
          by_cases h : (getPathSegment (stripLeadingSlash pfx)).2 = []
          · rw [h]; simp
          · exact rem_getLast _ hslast h
        rw [groupRegister.eq_def, if_neg hterm] at hg
        dsimp only at hg
        unfold addRoute at hdd
        rw [addRouteWith.eq_def, if_neg hterm2] at hdd
        dsimp only at hdd
        rw [hstripapp, hfst, hsnd] at hdd
        have hconv : ∀ x : RouteNode, addRouteWith getRouteTypeFromSegment x v
            (if (getPathSegment (stripLeadingSlash pfx)).2 = []
             then (if p1 = [] then [] else '/' :: p1)
             else (getPathSegment (stripLeadingSlash pfx)).2 ++ '/' :: p1) hd2 m =
          addRouteWith getRouteTypeFromSegment x v
            ((getPathSegment (stripLeadingSlash pfx)).2 ++ '/' :: p1) hd2 m := by
          intro x
          by_cases h : (getPathSegment (stripLeadingSlash pfx)).2 = []
          · rw [if_pos h, h, List.nil_append]
            exact addRouteWith_if_path x v hd2 m p1
          · rw [if_neg h]
        simp only [hconv] at hdd
        obtain ⟨p0, rt, pn, hs, mw, st, pa, wc⟩ := n
        simp only [RouteNode.path_mk, RouteNode.routeType_mk, RouteNode.paramName_mk,
          RouteNode.handlers_mk, RouteNode.middlewares_mk, RouteNode.static_mk,
          RouteNode.param_mk, RouteNode.wildcard_mk] at hg hdd
        have hihlen : (getPathSegment (stripLeadingSlash pfx)).2.length ≤ k := by omega
        have hhead1 : ('/' :: p1).head? = some '/' := rfl
        by_cases hcp : (getRouteTypeFromSegment
            (getPathSegment (stripLeadingSlash pfx)).1).1 = RouteType.Param
        · rw [if_pos hcp] at hg hdd
          cases hr1 : groupRegister (pa.getD (NewRouteNode
              (getPathSegment (stripLeadingSlash pfx)).1
              (getRouteTypeFromSegment (getPathSegment (stripLeadingSlash pfx)).1).1
              (getRouteTypeFromSegment (getPathSegment (stripLeadingSlash pfx)).1).2))
              (getPathSegment (stripLeadingSlash pfx)).2 v ('/' :: p1) hd2 m with
          | error e => rw [hr1] at hg; cases hg
          | ok c1 =>
              rw [hr1] at hg
              cases hg
              cases hr2 : addRouteWith getRouteTypeFromSegment (pa.getD (NewRouteNode
                  (getPathSegment (stripLeadingSlash pfx)).1
                  (getRouteTypeFromSegment (getPathSegment (stripLeadingSlash pfx)).1).1
                  (getRouteTypeFromSegment (getPathSegment (stripLeadingSlash pfx)).1).2)) v
                  ((getPathSegment (stripLeadingSlash pfx)).2 ++ '/' :: p1) hd2 m with
              | error e => rw [hr2] at hdd; cases hdd
              | ok d2 =>
                  rw [hr2] at hdd
                  cases hdd
                  refine Sim.mk _ _ _ _ _ _ _ _ _ _ _ _ (Eq.refl _) ?_ ?_ ?_
                  · rw [List.forall₂_same]; intro x _; exact Sim.rfl x
                  · exact List.Forall₂.cons
                      (ih _ hihlen _ _ _ _ v hd2 m hremlast hhead1 hv hr1 hr2)
                      List.Forall₂.nil
                  · rw [List.forall₂_same]; intro x _; exact Sim.rfl x
        · rw [if_neg hcp] at hg hdd
          by_cases hcw : (getRouteTypeFromSegment
              (getPathSegment (stripLeadingSlash pfx)).1).1 = RouteType.Wildcard
          · rw [if_pos hcw] at hg hdd
            cases hr1 : groupRegister (wc.getD (NewRouteNode
                (getPathSegment (stripLeadingSlash pfx)).1
                (getRouteTypeFromSegment (getPathSegment (stripLeadingSlash pfx)).1).1
                (getRouteTypeFromSegment (getPathSegment (stripLeadingSlash pfx)).1).2))
                (getPathSegment (stripLeadingSlash pfx)).2 v ('/' :: p1) hd2 m with
            | error e => rw [hr1] at hg; cases hg
            | ok c1 =>
                rw [hr1] at hg
                cases hg
                cases hr2 : addRouteWith getRouteTypeFromSegment (wc.getD (NewRouteNode
                    (getPathSegment (stripLeadingSlash pfx)).1
                    (getRouteTypeFromSegment (getPathSegment (stripLeadingSlash pfx)).1).1
                    (getRouteTypeFromSegment (getPathSegment (stripLeadingSlash pfx)).1).2)) v
                    ((getPathSegment (stripLeadingSlash pfx)).2 ++ '/' :: p1) hd2 m with
                | error e => rw [hr2] at hdd; cases hdd
                | ok d2 =>
                    rw [hr2] at hdd
                    cases hdd
                    refine Sim.mk _ _ _ _ _ _ _ _ _ _ _ _ (Eq.refl _) ?_ ?_ ?_
                    · rw [List.forall₂_same]; intro x _; exact Sim.rfl x
                    · rw [List.forall₂_same]; intro x _; exact Sim.rfl x
                    · exact List.Forall₂.cons
                        (ih _ hihlen _ _ _ _ v hd2 m hremlast hhead1 hv hr1 hr2)
                        List.Forall₂.nil
          · rw [if_neg hcw] at hg hdd
            cases hsplit : splitAtFirst (getPathSegment (stripLeadingSlash pfx)).1 st with
            | some trip =>
                obtain ⟨pre, c, post⟩ := trip
                rw [hsplit] at hg hdd
                dsimp only at hg hdd
                cases hr1 : groupRegister c (getPathSegment (stripLeadingSlash pfx)).2 v
                    ('/' :: p1) hd2 m with
                | error e => rw [hr1] at hg; cases hg
                | ok c1 =>
                    rw [hr1] at hg
                    cases hg
                    cases hr2 : addRouteWith getRouteTypeFromSegment c v
                        ((getPathSegment (stripLeadingSlash pfx)).2 ++ '/' :: p1) hd2 m with
                    | error e => rw [hr2] at hdd; cases hdd
                    | ok d2 =>
                        rw [hr2] at hdd
                        cases hdd
                        refine Sim.mk _ _ _ _ _ _ _ _ _ _ _ _ (Eq.refl _) ?_ ?_ ?_
                        · refine forall₂_append_sim ?_ (List.Forall₂.cons
                            (ih _ hihlen _ _ _ _ v hd2 m hremlast hhead1 hv hr1 hr2) ?_)
                          · rw [List.forall₂_same]; intro x _; exact Sim.rfl x
                          · rw [List.forall₂_same]; intro x _; exact Sim.rfl x
                        · rw [List.forall₂_same]; intro x _; exact Sim.rfl x
                        · rw [List.forall₂_same]; intro x _; exact Sim.rfl x
            | none =>
                rw [hsplit] at hg hdd
                dsimp only at hg hdd
                cases hr1 : groupRegister (NewRouteNode
                    (getPathSegment (stripLeadingSlash pfx)).1 RouteType.Static [])
                    (getPathSegment (stripLeadingSlash pfx)).2 v ('/' :: p1) hd2 m with
                | error e => rw [hr1] at hg; cases hg
                | ok c1 =>
                    rw [hr1] at hg
                    cases hg
                    cases hr2 : addRouteWith getRouteTypeFromSegment (NewRouteNode
                        (getPathSegment (stripLeadingSlash pfx)).1 RouteType.Static []) v
                        ((getPathSegment (stripLeadingSlash pfx)).2 ++ '/' :: p1) hd2 m with
                    | error e => rw [hr2] at hdd; cases hdd
                    | ok d2 =>
                        rw [hr2] at hdd
                        cases hdd
                        refine Sim.mk _ _ _ _ _ _ _ _ _ _ _ _ (Eq.refl _) ?_ ?_ ?_
                        · refine forall₂_append_sim ?_ (List.Forall₂.cons
                            (ih _ hihlen _ _ _ _ v hd2 m hremlast hhead1 hv hr1 hr2)
                            List.Forall₂.nil)
                          rw [List.forall₂_same]; intro x _; exact Sim.rfl x
                        · rw [List.forall₂_same]; intro x _; exact Sim.rfl x
                        · rw [List.forall₂_same]; intro x _; exact Sim.rfl x

/-- The tree produced by `Group("/api")` followed by registering
`GET "status"` (equally, `GET "/status"`) on the returned group node: the
`api` node carries the group's `""`-handler marker. -/
def c9gTree : RouteNode :=
  .mk [] .None [] [] []
    [.mk "api".toList .Static [] [("", none)] []
      [.mk "status".toList .Static [] [("GET", some 7)] [] [] none none] none none]
    none none

/-- The tree produced by registering `GET "/apistatus"` directly. -/
def c9dTree : RouteNode :=
  .mk [] .None [] [] []
    [.mk "apistatus".toList .Static [] [("GET", some 7)] [] [] none none] none none

/-- The tree produced by registering `GET "/api/status"` directly. -/
def c9wdTree : RouteNode :=
  .mk [] .None [] [] []
    [.mk "api".toList .Static [] [] []
      [.mk "status".toList .Static [] [("GET", some 7)] [] [] none none] none none]
    none none

/-- C9 as stated is false: for `prefix = "/api"` and `p = "status"` (no
leading slash), registering `p` on the node returned by `Group(prefix)`
produces a tree in which `Find(GET, prefix ++ p) = Find(GET, "/apistatus")`
fails, whereas direct registration of `(GET, prefix ++ p)` produces a tree
in which the same lookup resolves the handler — the group composes the path
with a segment boundary while string concatenation does not. -/
theorem c9_group_prefix_concat_counterexample :
    groupRegister rootNode "/api".toList "GET" "status".toList (some 7) [] = .ok c9gTree ∧
    addRoute rootNode "GET" ("/api".toList ++ "status".toList) (some 7) [] = .ok c9dTree ∧
    Find c9gTree "GET" ("/api".toList ++ "status".toList) = .error .routeNotFound ∧
    Find c9dTree "GET" ("/api".toList ++ "status".toList) =
      .ok { Method := "GET", Path := "/api".toList ++ "status".toList, Handler := some 7,
            Middlewares := [], PathParams := [] } := by
  refine ⟨?_, ?_, ?_, ?_⟩ <;>
    simp [c9gTree, c9dTree, groupRegister, addRoute, addRouteWith, Find, find, rootNode,
      NewRouteNode, lookupH, insertP, getPathSegment, getRouteTypeFromSegment, isPathParam,
      isWildcard, stripLeadingSlash, splitAtFirst, collectMiddlewares, notSlash,
      String.toList,
      RouteNode.path, RouteNode.routeType, RouteNode.paramName, RouteNode.handlers,
      RouteNode.middlewares, RouteNode.static, RouteNode.param, RouteNode.wildcard]

/-- C9 (amended): for every starting tree, every prefix that does not end
in a slash, every non-empty verb, and every path `p` that begins with a
slash, if registering `(verb, p)` on the node returned by `Group(prefix)`
succeeds and registering `(verb, prefix ++ p)` directly succeeds, then the
two resulting trees resolve every lookup with a non-empty verb — in
particular `(verb, prefix ++ p)` — identically: same handler, middleware
chain and parameter mapping.  (The amendments are forced: with `p` lacking
its leading slash the concatenation `prefix ++ p` fuses two segments, see
the counterexample; a prefix ending in `/` or the empty verb collide with
the group's own `""`-marker binding.) -/
theorem c9_group_registration_refines_direct
    (n : RouteNode) (pfx p : Seg) (v : String) (hd2 : Option Nat) (m : List Nat)
    (tg td : RouteNode)
    (hpl : pfx.getLast? ≠ some '/') (hph : p.head? = some '/') (hv : v ≠ "")
    (hg : groupRegister n pfx v p hd2 m = .ok tg)
    (hdd : addRoute n v (pfx ++ p) hd2 m = .ok td) :
    ∀ (v2 : String) (q : Seg), v2 ≠ "" → Find tg v2 q = Find td v2 q := by
  intro v2 q hv2
  have hsim : Sim tg td :=
    groupRegister_sim pfx.length pfx (le_refl _) n tg td p v hd2 m hpl hph hv hg hdd
  unfold Find
  rw [find_respects_sim q.length q (le_refl _) tg td [] [] v2 [] hv2 hsim rfl]

theorem c9_group_registration_refines_direct_witness :
    ("/api".toList.getLast? ≠ some '/') ∧ ("/status".toList.head? = some '/') ∧
    ("GET" ≠ "") ∧
    (groupRegister rootNode "/api".toList "GET" "/status".toList (some 7) [] =
      .ok c9gTree) ∧
    (addRoute rootNode "GET" ("/api".toList ++ "/status".toList) (some 7) [] =
      .ok c9wdTree) ∧
    Find c9gTree "GET" "/api/status".toList = Find c9wdTree "GET" "/api/status".toList :=
  ⟨by decide, by decide, by decide,
   by
     simp [c9gTree, groupRegister, addRoute, addRouteWith, rootNode, NewRouteNode, lookupH,
       getPathSegment, getRouteTypeFromSegment, isPathParam, isWildcard, stripLeadingSlash,
       splitAtFirst, notSlash, String.toList,
       RouteNode.path, RouteNode.routeType, RouteNode.paramName, RouteNode.handlers,
       RouteNode.middlewares, RouteNode.static, RouteNode.param, RouteNode.wildcard],
   by
     simp [c9wdTree, addRoute, addRouteWith, rootNode, NewRouteNode, lookupH,
       getPathSegment, getRouteTypeFromSegment, isPathParam, isWildcard, stripLeadingSlash,
       splitAtFirst, notSlash, String.toList,
       RouteNode.path, RouteNode.routeType, RouteNode.paramName, RouteNode.handlers,
       RouteNode.middlewares, RouteNode.static, RouteNode.param, RouteNode.wildcard],
   c9_group_registration_refines_direct rootNode "/api".toList "/status".toList "GET"
     (some 7) [] c9gTree c9wdTree (by decide) (by decide) (by decide)
     (by
       simp [c9gTree, groupRegister, addRoute, addRouteWith, rootNode, NewRouteNode,
         lookupH, getPathSegment, getRouteTypeFromSegment, isPathParam, isWildcard,
         stripLeadingSlash, splitAtFirst, notSlash, String.toList,
         RouteNode.path, RouteNode.routeType, RouteNode.paramName, RouteNode.handlers,
         RouteNode.middlewares, RouteNode.static, RouteNode.param, RouteNode.wildcard])
     (by
       simp [c9wdTree, addRoute, addRouteWith, rootNode, NewRouteNode, lookupH,
         getPathSegment, getRouteTypeFromSegment, isPathParam, isWildcard,
         stripLeadingSlash, splitAtFirst, notSlash, String.toList,
         RouteNode.path, RouteNode.routeType, RouteNode.paramName, RouteNode.handlers,
         RouteNode.middlewares, RouteNode.static, RouteNode.param, RouteNode.wildcard])
     "GET" "/api/status".toList (by decide)⟩
